import Mathlib

/-!
Verification of the G-Tracker scan/reconciliation core (src/background.js).

The JavaScript source is shallowly embedded: date strings of the form
YYYY-MM-DD become epoch-day numbers (days since 1970-01-01), JavaScript
Date values become millisecond counts since the epoch, and the stateful
IndexedDB stores become explicit record lists threaded through the
functions.  The JavaScript runtime is assumed to be configured for the
UTC timezone, so that Date parsing, setMonth and toISOString all act on
the same civil calendar; progress arithmetic, done in IEEE doubles in
the source, is carried as exact integer fractions (all concrete values
appearing in the claims are exactly representable in IEEE doubles, so the
two agree on them).  Fallible external calls
(Gmail search and fetch, the language model, the Calendar API, storage
reads) are oracles returning Except values.
-/

namespace GTracker

/-! ## Civil calendar arithmetic (JavaScript Date, UTC) -/

def isLeapYear (y : Nat) : Bool :=
  (y % 4 == 0 && y % 100 != 0) || y % 400 == 0

def daysInMonth (y m : Nat) : Nat :=
  if m == 2 then (if isLeapYear y then 29 else 28)
  else if m == 4 || m == 6 || m == 9 || m == 11 then 30
  else 31

/-- Days from 1970-01-01 to January 1 of year `1970 + n`. -/
def daysToYearAux : Nat → Nat
  | 0 => 0
  | n + 1 => daysToYearAux n + (if isLeapYear (1970 + n) then 366 else 365)

/-- Days from the first of January to the first of month `m` in year `y`. -/
def daysBeforeMonth (y m : Nat) : Nat :=
  ((List.range (m - 1)).map (fun i => daysInMonth y (i + 1))).foldl (· + ·) 0

/-- Epoch-day number of the civil date `y-m-d` (valid for years from 1970 on).
Because the day component enters linearly, this is exactly the JavaScript
MakeDay normalization: a day component larger than the month length rolls
over into the following months. -/
def civilToDay (y m d : Nat) : Nat :=
  daysToYearAux (y - 1970) + daysBeforeMonth y m + (d - 1)

structure CivilDate where
  year : Nat
  month : Nat
  day : Nat
deriving DecidableEq, Repr

def CivilDate.toDay (c : CivilDate) : Nat := civilToDay c.year c.month c.day

/-- `new Date(null)` / `new Date(0)`: the epoch. -/
def epochCivil : CivilDate := ⟨1970, 1, 1⟩

/-- Epoch-day → year and day-of-year, by peeling whole years. -/
def civilOfDayYearAux : Nat → Nat → Nat → Nat × Nat
  | 0, y, d => (y, d)
  | fuel + 1, y, d =>
    let len := if isLeapYear y then 366 else 365
    if d < len then (y, d) else civilOfDayYearAux fuel (y + 1) (d - len)

/-- Day-of-year → month and day-of-month. -/
def civilOfDayMonthAux : Nat → Nat → Nat → Nat → Nat × Nat
  | 0, _, m, d => (m, d)
  | fuel + 1, y, m, d =>
    if d < daysInMonth y m then (m, d)
    else civilOfDayMonthAux fuel y (m + 1) (d - daysInMonth y m)

/-- Civil date of an epoch-day number (the date part of `toISOString`). -/
def civilOfDay (day : Nat) : CivilDate :=
  let yd := civilOfDayYearAux (day + 1) 1970 day
  let md := civilOfDayMonthAux 12 yd.1 1 yd.2
  ⟨yd.1, md.1, md.2 + 1⟩

/-- JavaScript `d.setMonth(d.getMonth() + 1)` on a UTC-midnight date,
followed by `toISOString().split('T')[0]`, as an epoch-day number.  The
day-of-month is kept and normalized by rolling into the next month, which
is exactly `civilToDay` applied to the incremented month. -/
def jsAddOneMonthDay (c : CivilDate) : Nat :=
  if c.month == 12 then civilToDay (c.year + 1) 1 c.day
  else civilToDay c.year (c.month + 1) c.day

def msPerDay : Nat := 86400000

/-! ## Scan history and `getOptimizedScanRanges` (PackageDatabase) -/

structure ScanHistoryEntry where
  scanDateMs : Nat
  emailsScanned : Nat
  earliestEmailTimestampMs : Nat
  latestEmailTimestampMs : Nat
  startDateRequested : Nat -- epoch day of the requested start date
  endDateRequested : Nat   -- epoch day of the requested end date
  packagesFound : Nat
deriving DecidableEq, Repr

/-- One element of the list returned by `getOptimizedScanRanges`; the
sentinel "already fully scanned" marker has `none` bounds. -/
structure ScanRange where
  startDate : Option Nat
  endDate : Option Nat
  reason : String
deriving DecidableEq, Repr

instance : Inhabited ScanRange := ⟨⟨none, none, ""⟩⟩

/-- Stable insertion of `x` into a list sorted by `le`. -/
def insertSortedBy (le : α → α → Bool) (x : α) : List α → List α
  | [] => [x]
  | y :: ys => if le x y then x :: y :: ys else y :: insertSortedBy le x ys

/-- Stable insertion sort, mirroring `Array.prototype.sort` with a
numeric-difference comparator (ES2019 sorts are stable). -/
def sortListBy (le : α → α → Bool) : List α → List α
  | [] => []
  | x :: xs => insertSortedBy le x (sortListBy le xs)

/-- `getScanHistory`: all entries, sorted by scan instant descending. -/
def getScanHistory (entries : List ScanHistoryEntry) : List ScanHistoryEntry :=
  sortListBy (fun a b => b.scanDateMs ≤ a.scanDateMs) entries

def overlapsRequested (requestedStart requestedEnd : Nat) (scan : ScanHistoryEntry) : Bool :=
  let scanStart := scan.startDateRequested * msPerDay
  let scanEnd := scan.endDateRequested * msPerDay
  !(decide (scanEnd < requestedStart) || decide (scanStart > requestedEnd))

/-- The gap-sweeping loop of `getOptimizedScanRanges`: walks the
overlapping entries in requested-start order, emitting a gap whenever the
cursor is strictly before an entry start and advancing the cursor to
`max(cursor, entryEndMs + 1)` (one millisecond, as in the source, not one
day).  Returns the emitted gaps and the final cursor. -/
def sweepRanges : List ScanHistoryEntry → Nat → List ScanRange × Nat
  | [], currentStart => ([], currentStart)
  | scan :: rest, currentStart =>
    let scanStart := scan.startDateRequested * msPerDay
    let scanEnd := scan.endDateRequested * msPerDay
    let gapsHere : List ScanRange :=
      if currentStart < scanStart then
        [{ startDate := some (currentStart / msPerDay),
           endDate := some ((scanStart - 1) / msPerDay),
           reason := "Gap before scanned range" }]
      else []
    let next := sweepRanges rest (max currentStart (scanEnd + 1))
    (gapsHere ++ next.1, next.2)

/-- `PackageDatabase.getOptimizedScanRanges`, over epoch-day request
bounds.  (The catch-all error fallback of the source, which returns the
full range, is unreachable in the pure embedding.) -/
def getOptimizedScanRanges (history : List ScanHistoryEntry)
    (startDate endDate : Nat) : List ScanRange :=
  let scanHistory := getScanHistory history
  let requestedStart := startDate * msPerDay
  let requestedEnd := endDate * msPerDay
  let overlappingScans := scanHistory.filter (overlapsRequested requestedStart requestedEnd)
  if overlappingScans.isEmpty then
    [{ startDate := some startDate, endDate := some endDate,
       reason := "No previous scans found" }]
  else
    let sorted := sortListBy (fun a b => a.startDateRequested ≤ b.startDateRequested)
      overlappingScans
    let swept := sweepRanges sorted requestedStart
    let rangesToScan :=
      if swept.2 ≤ requestedEnd then
        swept.1 ++ [{ startDate := some (swept.2 / msPerDay), endDate := some endDate,
                      reason := "Gap after scanned range" }]
      else swept.1
    if rangesToScan.isEmpty then
      [{ startDate := none, endDate := none, reason := "Range already fully scanned" }]
    else rangesToScan

/-! ## Progress reporting -/

/-- `Math.round (num / den)` for a nonnegative fraction (half rounds up):
`⌊num/den + 1/2⌋ = (2*num + den) / (2*den)`.  The source computes these
progress blends in IEEE doubles; every fraction is carried exactly here,
with the division written out so the kernel can evaluate it. -/
def roundFrac (num den : Nat) : Nat := (2 * num + den) / (2 * den)

/-- One invocation of the progress callback.  Message texts are
abbreviated where the source interpolates data that no claim mentions. -/
structure ProgressEvent where
  step : String
  progress : Nat
  message : String
deriving DecidableEq, Repr

/-! ## Package pipeline (GmailScanner, PackageTracker, PackageDatabase) -/

abbrev EmailId := Nat

structure Email where
  id : EmailId
  dateMs : Option Nat -- parsed Date header; none when the header is missing or unparsable
  subject : String
  fromAddr : String -- the `from` header (renamed: `from` is reserved in Lean)
  snippet : String
deriving DecidableEq, Repr

structure PackageRecord where
  emailId : EmailId
  userEmail : String
  sender : String
  deliveryDate : Option Nat -- epoch day, null when no date could be determined
  deliveryTimeMs : Nat
  pickedUp : Bool
deriving DecidableEq, Repr

structure PkgDB where
  packages : List PackageRecord
  scanHistory : List ScanHistoryEntry
deriving DecidableEq, Repr

/-- Raw output of the language model for the delivery category, after JSON
parsing; `error` is a fetch-side or parse failure (`MalformedModelOutput`). -/
structure RawDeliveryInfo where
  isDeliveryEmail : Bool
  deliveryDate : Option Nat
  sender : Option String
deriving DecidableEq, Repr

structure DeliveryInfo where
  isDeliveryEmail : Bool
  deliveryDate : Option Nat
  sender : String
deriving DecidableEq, Repr

/-- `String.prototype.toLowerCase` (over the underlying character list,
which the kernel can evaluate). -/
def lowerStr (s : String) : String := ⟨s.data.map Char.toLower⟩

/-- `PackageTracker.extractSenderFromEmail`: the first dot-component of the
domain of the from-address, lowercased (the angle-bracket stripping of the
source regex is immaterial for the shapes exercised here). -/
def extractSenderFromEmail (emailFrom : String) : String :=
  match emailFrom.splitOn "@" with
  | _ :: domainPart :: _ =>
    if domainPart = "" then "unknown"
    else lowerStr (((domainPart.splitOn ".").headD ""))
  | _ => "unknown"

/-- `PackageTracker.extractDeliveryInfo`: applies the sent-date fallback for
a missing delivery date and the from-domain fallback for a missing sender. -/
def extractDeliveryInfo (llm : Except Unit RawDeliveryInfo) (emailFrom : String)
    (emailDateMs : Option Nat) : Except Unit DeliveryInfo :=
  match llm with
  | .error e => .error e
  | .ok info =>
    .ok { isDeliveryEmail := info.isDeliveryEmail,
          deliveryDate := match info.deliveryDate with
            | some d => some d
            | none => emailDateMs.map (fun ms => ms / msPerDay),
          sender := info.sender.getD (extractSenderFromEmail emailFrom) }

/-- `PackageDatabase.emailExists` applied to the result of the underlying
`getAll` read: a storage error resolves to `false` (both the request
`onerror` handler and the surrounding catch return `false`). -/
def emailExists (readResult : Except Unit (List PackageRecord)) (emailId : EmailId) : Bool :=
  match readResult with
  | .error _ => false
  | .ok packages => packages.any (fun p => p.emailId == emailId)

/-- Environment of external capabilities consumed by the package scan. -/
structure PkgEnv where
  nowMs : Nat
  search : Nat → Nat → Except Unit (List EmailId) -- searchPackageEmails per (start, end) days
  fetch : EmailId → Except Unit Email
  llmDelivery : EmailId → Except Unit RawDeliveryInfo
  readPackages : List PackageRecord → EmailId → Except Unit (List PackageRecord)
  userEmail : String

structure PkgScanState where
  db : PkgDB
  events : List ProgressEvent
  totalEmailsScanned : Nat
  earliest : Option Nat
  latest : Option Nat
  processed : List PackageRecord
  fetched : List EmailId -- ids passed to `gmailScanner.fetchEmail`
  aborted : Bool
deriving DecidableEq, Repr

def mkEvent (step : String) (progress : Nat) (message : String) : ProgressEvent :=
  { step := step, progress := progress, message := message }

def pushEvent (st : PkgScanState) (e : ProgressEvent) : PkgScanState :=
  { st with events := st.events ++ [e] }

/-- The progress event of one iteration of the per-email loop:
`Math.round(base + 15 + ((i+1)/m) * 65)` where `base = (r/n) * 85` is
carried as the exact fraction `bn/bd = (r*85)/n`. -/
def procEvent (bn bd m i : Nat) : ProgressEvent :=
  mkEvent "processing" (roundFrac (bn * m + 15 * bd * m + 65 * (i + 1) * bd) (bd * m))
    ("Processing email " ++ toString (i + 1) ++ "/" ++ toString m)

/-- One iteration of the per-email processing loop of
`processPackageEmails` (the try block around fetch, extract and save; any
failure inside it is caught and the loop continues). -/
def processOneEmail (env : PkgEnv) (bn bd m : Nat) (i : Nat) (emailId : EmailId)
    (st : PkgScanState) : PkgScanState :=
  let st := pushEvent st (procEvent bn bd m i)
  let st := { st with fetched := st.fetched ++ [emailId] }
  match env.fetch emailId with
  | .error _ => st
  | .ok email =>
    match email.dateMs with
    | none => st -- toISOString on an invalid Date throws; caught per item
    | some ts =>
      let st := { st with
        earliest := some (match st.earliest with | none => ts | some e => min e ts),
        latest := some (match st.latest with | none => ts | some l => max l ts) }
      match extractDeliveryInfo (env.llmDelivery emailId) email.fromAddr (some ts) with
      | .error _ => st
      | .ok info =>
        if info.isDeliveryEmail then
          let record : PackageRecord :=
            { emailId := emailId, userEmail := env.userEmail, sender := info.sender,
              deliveryDate := info.deliveryDate, deliveryTimeMs := ts, pickedUp := false }
          { st with db := { st.db with packages := st.db.packages ++ [record] },
                    processed := st.processed ++ [record] }
        else st

def processEmailList (env : PkgEnv) (bn bd m : Nat) :
    List EmailId → Nat → PkgScanState → PkgScanState
  | [], _, st => st
  | id :: rest, i, st =>
    processEmailList env bn bd m rest (i + 1) (processOneEmail env bn bd m i id st)

/-- One iteration of the range loop of `processPackageEmails`: search,
dedup filter against the live store, then per-email processing.  A search
failure propagates to the outer catch (`aborted`).  The weighted base
progress `(i/n) * 85` is the exact fraction `(i*85)/n`. -/
def processRange (env : PkgEnv) (n : Nat) (i : Nat) (range : ScanRange)
    (st : PkgScanState) : PkgScanState :=
  if st.aborted then st
  else
    let st := pushEvent st
      (mkEvent "scanning" (roundFrac (i * 85 + 5 * n) n) "Scanning emails in range")
    match env.search (range.startDate.getD 0) (range.endDate.getD 0) with
    | .error _ => { st with aborted := true }
    | .ok allEmailIds =>
      let st := { st with totalEmailsScanned := st.totalEmailsScanned + allEmailIds.length }
      if allEmailIds.length = 0 then
        pushEvent st (mkEvent "scanning" (roundFrac (i * 85 + 80 * n) n) "No emails found")
      else
        let st := pushEvent st
          (mkEvent "filtering" (roundFrac (i * 85 + 10 * n) n) "Filtering emails...")
        let newEmailIds := allEmailIds.filter
          (fun id => !(emailExists (env.readPackages st.db.packages id) id))
        if newEmailIds.length = 0 then
          pushEvent st (mkEvent "filtering" (roundFrac (i * 85 + 80 * n) n)
            "All emails already processed")
        else
          processEmailList env (i * 85) n newEmailIds.length newEmailIds 0 st

def processRangesLoop (env : PkgEnv) (n : Nat) :
    List ScanRange → Nat → PkgScanState → PkgScanState
  | [], _, st => st
  | r :: rest, i, st => processRangesLoop env n rest (i + 1) (processRange env n i r st)

structure PkgScanResult where
  events : List ProgressEvent
  db : PkgDB
  ok : Bool -- false when the outer catch re-threw
  returned : List PackageRecord
  fetched : List EmailId
  emailsScanned : Nat
deriving DecidableEq, Repr

/-- `PackageTracker.processPackageEmails`: reconcile ranges, short-circuit
on the fully-covered sentinel, process each range, save one history entry
(only when at least one message was examined), report completion. -/
def processPackageEmails (env : PkgEnv) (db : PkgDB) (startDate endDate : Nat) :
    PkgScanResult :=
  let ev0 : List ProgressEvent :=
    [mkEvent "optimizing" 5 "Checking scan history for optimization..."]
  let ranges := getOptimizedScanRanges db.scanHistory startDate endDate
  if ranges.length = 1 ∧ ((ranges.headD default).startDate) = none then
    { events := ev0 ++
        [mkEvent "complete" 100 "Date range already fully scanned. No new emails to process."],
      db := db, ok := true, returned := [], fetched := [], emailsScanned := 0 }
  else
    let st0 : PkgScanState :=
      { db := db, events := ev0, totalEmailsScanned := 0, earliest := none,
        latest := none, processed := [], fetched := [], aborted := false }
    let st := processRangesLoop env ranges.length ranges 0 st0
    if st.aborted then
      { events := st.events ++ [mkEvent "error" 0 "Error: Gmail search failed"],
        db := st.db, ok := false, returned := [], fetched := st.fetched,
        emailsScanned := st.totalEmailsScanned }
    else
      let st := pushEvent st (mkEvent "saving" 90 "Saving scan history...")
      let afterSave :=
        if st.totalEmailsScanned > 0 then
          let entry : ScanHistoryEntry :=
            { scanDateMs := env.nowMs,
              emailsScanned := st.totalEmailsScanned,
              earliestEmailTimestampMs := st.earliest.getD (startDate * msPerDay),
              latestEmailTimestampMs := st.latest.getD (endDate * msPerDay),
              startDateRequested := startDate,
              endDateRequested := endDate,
              packagesFound := st.processed.length }
          pushEvent { st with db := { st.db with scanHistory := st.db.scanHistory ++ [entry] } }
            (mkEvent "saving" 95 "Scan history saved successfully")
        else
          pushEvent st (mkEvent "saving" 95 "No scan history to save")
      { events := afterSave.events ++ [mkEvent "complete" 100 "Scan complete"],
        db := afterSave.db, ok := true, returned := afterSave.processed,
        fetched := afterSave.fetched, emailsScanned := afterSave.totalEmailsScanned }

/-! ## Subscription pipeline (SubscriptionTracker) -/

structure SubRecord where
  emailId : EmailId
  userEmail : String
  subscriptionName : Option String
  amount : Option String
  billingDate : Option CivilDate -- the stored billingDate string, null when absent
  reminderDay : Nat -- epoch day of the stored reminderDate string
deriving DecidableEq, Repr

structure CalendarEventRecord where
  emailId : EmailId
  subscriptionName : Option String
  calendarEventId : Nat
deriving DecidableEq, Repr

structure SubScanHistoryEntry where
  scanDateMs : Nat
  startDay : Nat
  endDay : Nat
  emailsScanned : Nat
  subscriptionsFound : Nat
  calendarEventsCreated : Nat
deriving DecidableEq, Repr

structure SubDB where
  subscriptions : List SubRecord
  calendarEvents : List CalendarEventRecord
  subScanHistory : List SubScanHistoryEntry
deriving DecidableEq, Repr

def latestByScanDate : List SubScanHistoryEntry → Option SubScanHistoryEntry
  | [] => none
  | e :: rest =>
    match latestByScanDate rest with
    | none => some e
    | some b => if b.scanDateMs ≤ e.scanDateMs then some e else some b

/-- `getLatestSubscriptionScanDate`: end date of the entry with the most
recent scan instant (descending cursor over the scan-date index). -/
def getLatestSubscriptionScanDate (db : SubDB) : Option Nat :=
  (latestByScanDate db.subScanHistory).map (·.endDay)

/-- `calendarEventExists`: lookup on the email-id index. -/
def calendarEventExists (db : SubDB) (emailId : EmailId) : Bool :=
  db.calendarEvents.any (fun e => e.emailId == emailId)

def charsStartWith : List Char → List Char → Bool
  | [], _ => true
  | _ :: _, [] => false
  | p :: ps, c :: cs => p == c && charsStartWith ps cs

def charsContain (pat : List Char) : List Char → Bool
  | [] => charsStartWith pat []
  | c :: cs => charsStartWith pat (c :: cs) || charsContain pat cs

/-- `String.prototype.includes`. -/
def strContains (s pat : String) : Bool := charsContain pat.toList s.toList

def subscriptionSpecificKeywords : List String :=
  ["subscription", "renewal", "monthly subscription", "annual subscription"]

/-- `SubscriptionTracker.isLikelySubscriptionEmail`: cheap pre-filter on
the lowercased subject and snippet. -/
def isLikelySubscriptionEmail (email : Email) : Bool :=
  let subject := lowerStr email.subject
  let fullContent := lowerStr email.snippet
  let hasSubscriptionSubject := strContains subject "subscription" || strContains subject "plan"
  let hasSubscriptionContent := subscriptionSpecificKeywords.any
    (fun keyword => strContains fullContent (lowerStr keyword))
  hasSubscriptionContent || hasSubscriptionSubject

/-- Parsed language-model output for the subscription category. -/
structure SubRawInfo where
  isSubscriptionEmail : Bool
  subscriptionName : Option String
  amount : Option String
  billingDate : Option CivilDate
deriving DecidableEq, Repr

/-- `extractSubscriptionInfo`: a missing billing date falls back to the
date part of the email's sent instant when that instant is known. -/
def extractSubscriptionInfo (llm : Except Unit SubRawInfo)
    (emailDateMs : Option Nat) : Except Unit SubRawInfo :=
  match llm with
  | .error e => .error e
  | .ok info =>
    .ok { info with billingDate := match info.billingDate with
      | some d => some d
      | none => emailDateMs.map (fun ms => civilOfDay (ms / msPerDay)) }

structure SubEnv where
  nowMs : Nat
  search : Nat → Nat → Except Unit (List EmailId)
  fetch : EmailId → Except Unit Email
  llmSub : EmailId → Except Unit SubRawInfo
  calendarCreate : EmailId → Except Unit Nat -- Calendar API, keyed by source message
  userEmail : String

/-- Element of the in-memory `subscriptions` array built by the scan. -/
structure SubMatch where
  emailId : EmailId
  info : SubRawInfo
deriving DecidableEq, Repr

structure SubScanState where
  db : SubDB
  events : List ProgressEvent
  matched : List SubMatch
  analyzed : Nat
  fetchedIds : List EmailId -- ids passed to `fetchEmail`
  analyzedIds : List EmailId -- ids passed to the language model
deriving DecidableEq, Repr

def subPushEvent (st : SubScanState) (e : ProgressEvent) : SubScanState :=
  { st with events := st.events ++ [e] }

/-- One iteration of the per-email loop of
`scanCurrentMonthSubscriptions`; every failure in the try block (fetch,
extraction, save) is caught and the loop continues.  Note that no
existence check against the subscription store precedes the save. -/
def subProcessOneEmail (env : SubEnv) (total : Nat) (i : Nat) (emailId : EmailId)
    (st : SubScanState) : SubScanState :=
  let processed := i + 1
  let emailProgress := roundFrac (30 * total + 50 * processed) total
  let st := subPushEvent st (mkEvent "subscription_scan" emailProgress
    ("Processing email " ++ toString processed ++ "/" ++ toString total))
  let st := { st with fetchedIds := st.fetchedIds ++ [emailId] }
  match env.fetch emailId with
  | .error _ => st
  | .ok email =>
    if !(isLikelySubscriptionEmail email) then st
    else
      let st := { st with analyzed := st.analyzed + 1 }
      let st := subPushEvent st (mkEvent "subscription_scan" emailProgress
        ("Analyzing subscription email " ++ toString st.analyzed))
      let st := { st with analyzedIds := st.analyzedIds ++ [emailId] }
      match extractSubscriptionInfo (env.llmSub emailId) email.dateMs with
      | .error _ => st
      | .ok info =>
        if info.isSubscriptionEmail then
          let billingForCalc : CivilDate := (info.billingDate).getD epochCivil
          let reminderDay := jsAddOneMonthDay billingForCalc
          let record : SubRecord :=
            { emailId := emailId, userEmail := env.userEmail,
              subscriptionName := info.subscriptionName, amount := info.amount,
              billingDate := info.billingDate, reminderDay := reminderDay }
          { st with db := { st.db with subscriptions := st.db.subscriptions ++ [record] },
                    matched := st.matched ++ [⟨emailId, info⟩] }
        else st

def subProcessEmails (env : SubEnv) (total : Nat) :
    List EmailId → Nat → SubScanState → SubScanState
  | [], _, st => st
  | id :: rest, i, st =>
    subProcessEmails env total rest (i + 1) (subProcessOneEmail env total i id st)

/-- A call to the calendar capability, recorded with the billing date it
was derived from and the all-day event date it requested. -/
structure CalRequest where
  emailId : EmailId
  billingUsed : Option CivilDate
  requestedDay : Nat
deriving DecidableEq, Repr

structure SubEventLoopState where
  db : SubDB
  created : List Nat
  calRequests : List CalRequest
deriving DecidableEq, Repr

/-- The calendar-event loop: existence check against the
calendar-events store, then `createSubscriptionReminderEvent` (which
recomputes the reminder date from the billing date with the same
setMonth rule) and the duplicate-prevention record; a failure is caught
and the loop continues with the next subscription. -/
def subCreateEventsLoop (env : SubEnv) :
    List SubMatch → SubEventLoopState → SubEventLoopState
  | [], st => st
  | m :: rest, st =>
    let st1 :=
      if calendarEventExists st.db m.emailId then st
      else
        let billingForCalc : CivilDate := (m.info.billingDate).getD epochCivil
        let reminderDay := jsAddOneMonthDay billingForCalc
        let st := { st with calRequests := st.calRequests ++
          [⟨m.emailId, m.info.billingDate, reminderDay⟩] }
        match env.calendarCreate m.emailId with
        | .error _ => st
        | .ok eventId =>
          let record : CalendarEventRecord :=
            { emailId := m.emailId, subscriptionName := m.info.subscriptionName,
              calendarEventId := eventId }
          let newDB : SubDB :=
            { st.db with calendarEvents := st.db.calendarEvents ++ [record] }
          { st with db := newDB, created := st.created ++ [eventId] }
    subCreateEventsLoop env rest st1

structure SubScanResult where
  events : List ProgressEvent
  db : SubDB
  ok : Bool
  created : List Nat
  calRequests : List CalRequest
  fetchedIds : List EmailId
  analyzedIds : List EmailId
deriving DecidableEq, Repr

/-- The date window of a subscription scan: incremental from the last
recorded scan end, else the current month. -/
def subScanWindow (env : SubEnv) (db : SubDB) : Nat × Nat :=
  let todayDay := env.nowMs / msPerDay
  match getLatestSubscriptionScanDate db with
  | some lastEnd => (lastEnd, todayDay)
  | none =>
    let c := civilOfDay todayDay
    (civilToDay c.year c.month 1, civilToDay c.year c.month (daysInMonth c.year c.month))

/-- `SubscriptionTracker.scanCurrentMonthSubscriptions`: choose the
window, search, per-email fetch/pre-filter/classify/persist, then the
calendar-event loop, completion report and one history entry. -/
def scanCurrentMonthSubscriptions (env : SubEnv) (db : SubDB) : SubScanResult :=
  let window := subScanWindow env db
  let ev0 := [mkEvent "subscription_scan" 10 "Searching for subscription emails..."]
  match env.search window.1 window.2 with
  | .error _ =>
    { events := ev0 ++ [mkEvent "error" 0 "Error: Gmail search failed"], db := db,
      ok := false, created := [], calRequests := [], fetchedIds := [], analyzedIds := [] }
  | .ok emailIds =>
    if emailIds.length = 0 then
      { events := ev0 ++ [mkEvent "complete" 100 "No subscription emails found"], db := db,
        ok := true, created := [], calRequests := [], fetchedIds := [], analyzedIds := [] }
    else
      let ev1 := ev0 ++ [mkEvent "subscription_scan" 30
        ("Processing " ++ toString emailIds.length ++ " subscription emails...")]
      let st0 : SubScanState :=
        { db := db, events := ev1, matched := [], analyzed := 0,
          fetchedIds := [], analyzedIds := [] }
      let st := subProcessEmails env emailIds.length emailIds 0 st0
      let st := subPushEvent st (mkEvent "subscription_scan" 80
        ("Creating calendar events for " ++ toString st.matched.length ++ " subscriptions..."))
      let ev := subCreateEventsLoop env st.matched
        { db := st.db, created := [], calRequests := [] }
      let historyEntry : SubScanHistoryEntry :=
        { scanDateMs := env.nowMs, startDay := window.1, endDay := window.2,
          emailsScanned := emailIds.length, subscriptionsFound := st.matched.length,
          calendarEventsCreated := ev.created.length }
      { events := st.events ++ [mkEvent "complete" 100
          ("Created " ++ toString ev.created.length ++ " subscription reminders")],
        db := { ev.db with subScanHistory := ev.db.subScanHistory ++ [historyEntry] },
        ok := true, created := ev.created, calRequests := ev.calRequests,
        fetchedIds := st.fetchedIds, analyzedIds := st.analyzedIds }

/-! ## Scanning-state singletons, startup, and the message handler guard -/

structure ScanningState where
  isScanning : Bool
  progress : Int
  message : String
  step : String
  startTime : Option Nat
deriving DecidableEq, Repr

def cleanScanningState : ScanningState :=
  { isScanning := false, progress := 0, message := "", step := "", startTime := none }

/-- A scanning state as persisted by `saveScanningStates` (state fields
plus a write timestamp). -/
structure StoredScanningState where
  state : ScanningState
  timestamp : Nat
deriving DecidableEq, Repr

structure BackgroundState where
  subscriptionScanningState : ScanningState
  packageScanningState : ScanningState
deriving DecidableEq, Repr

structure LocalStorage where
  subscriptionStored : Option StoredScanningState
  packageStored : Option StoredScanningState
deriving DecidableEq, Repr

structure CleanupResult where
  mem : BackgroundState
  storage : LocalStorage
  broadcast : List ProgressEvent
deriving DecidableEq, Repr

/-- `cleanupOnStartup`: resets both in-memory states, removes the
persisted states and broadcasts a cleanup message, irrespective of the
prior contents. -/
def cleanupOnStartup (mem : BackgroundState) (storage : LocalStorage) : CleanupResult :=
  let _ := mem
  let _ := storage
  { mem := { subscriptionScanningState := cleanScanningState,
             packageScanningState := cleanScanningState },
    storage := { subscriptionStored := none, packageStored := none },
    broadcast := [mkEvent "cleanup" 0 "Extension reloaded - resetting scan states"] }

def tenMinutesMs : Nat := 600000

/-- One half of `loadScanningStates`: restore a persisted state when it
is younger than ten minutes and marked scanning. -/
def loadScanningState (stored : Option StoredScanningState) (nowMs : Nat)
    (current : ScanningState) : ScanningState :=
  match stored with
  | none => current
  | some s =>
    if nowMs - s.timestamp < tenMinutesMs && s.state.isScanning then s.state else current

/-- `loadScanningStates`, run at every evaluation of the background
module (line 2134 of the source). -/
def loadScanningStates (storage : LocalStorage) (nowMs : Nat)
    (mem : BackgroundState) : BackgroundState :=
  { subscriptionScanningState :=
      loadScanningState storage.subscriptionStored nowMs mem.subscriptionScanningState,
    packageScanningState :=
      loadScanningState storage.packageStored nowMs mem.packageScanningState }

structure StartResponse where
  success : Bool
  error : String
deriving DecidableEq, Repr

structure PkgStartResult where
  response : StartResponse
  state : ScanningState
  db : PkgDB
  started : Bool
deriving DecidableEq, Repr

/-- The `PROCESS_PACKAGE_EMAILS` branch of `handleMessage`: reject when a
package scan is active, else initialize the state and run the
orchestrator (post-run progress bookkeeping is reduced to clearing the
active flag). -/
def handleProcessPackageEmails (st : ScanningState) (nowMs : Nat) (env : PkgEnv)
    (db : PkgDB) (startDate endDate : Nat) : PkgStartResult :=
  if st.isScanning then
    { response := { success := false, error := "Package scan already in progress" },
      state := st, db := db, started := false }
  else
    let started : ScanningState :=
      { isScanning := true, progress := 0, message := "Initializing...",
        step := "initializing", startTime := some nowMs }
    let run := processPackageEmails env db startDate endDate
    { response := { success := run.ok, error := if run.ok then "" else "scan failed" },
      state := { started with isScanning := false }, db := run.db, started := true }

structure SubStartResult where
  response : StartResponse
  state : ScanningState
  db : SubDB
  started : Bool
deriving DecidableEq, Repr

/-- The `SCAN_SUBSCRIPTION_EMAILS` branch of `handleMessage`. -/
def handleScanSubscriptionEmails (st : ScanningState) (nowMs : Nat) (env : SubEnv)
    (db : SubDB) : SubStartResult :=
  if st.isScanning then
    { response := { success := false, error := "Subscription scan already in progress" },
      state := st, db := db, started := false }
  else
    let started : ScanningState :=
      { isScanning := true, progress := 0, message := "Initializing subscription scan...",
        step := "subscription_scan", startTime := some nowMs }
    let run := scanCurrentMonthSubscriptions env db
    { response := { success := run.ok, error := if run.ok then "" else "scan failed" },
      state := { started with isScanning := false }, db := run.db, started := true }

/-! ## Concrete scenarios used by the theorems below -/

def dbPkgEmpty : PkgDB := ⟨[], []⟩

/-- The history entry of the specification's gap-computation example:
requested bounds 2024-01-10 .. 2024-01-20. -/
def historyEntryJan2024 : ScanHistoryEntry :=
  { scanDateMs := 0, emailsScanned := 5, earliestEmailTimestampMs := 0,
    latestEmailTimestampMs := 0, startDateRequested := civilToDay 2024 1 10,
    endDateRequested := civilToDay 2024 1 20, packagesFound := 1 }

def pkgRec1 : PackageRecord :=
  { emailId := 1, userEmail := "u@g.com", sender := "amazon",
    deliveryDate := some 19750, deliveryTimeMs := 5, pickedUp := false }

/-- A history entry covering days 100 .. 110. -/
def histDays100to110 : ScanHistoryEntry := ⟨0, 5, 0, 0, 100, 110, 1⟩

/-- A history entry covering days 90 .. 130. -/
def histDays90to130 : ScanHistoryEntry := ⟨7, 3, 0, 0, 90, 130, 2⟩

def dbTwoRanges : PkgDB := ⟨[pkgRec1], [histDays100to110]⟩

/-- Package environment whose search finds email 1 on the first gap and
nothing on the second. -/
def envTwoRanges : PkgEnv :=
  { nowMs := 42, search := fun a _ => if a == 95 then .ok [1] else .ok [],
    fetch := fun _ => .error (), llmDelivery := fun _ => .error (),
    readPackages := fun ps _ => .ok ps, userEmail := "u@g.com" }

/-- Package environment whose searches all come back empty. -/
def envNoEmails : PkgEnv :=
  { nowMs := 42, search := fun _ _ => .ok [], fetch := fun _ => .error (),
    llmDelivery := fun _ => .error (), readPackages := fun ps _ => .ok ps,
    userEmail := "u@g.com" }

/-- Package environment whose storage reads error out, with one
delivery-positive email. -/
def envReadsError : PkgEnv :=
  { nowMs := 9, search := fun _ _ => .ok [1],
    fetch := fun _ => .ok ⟨1, some (19730 * msPerDay), "pkg", "ship@amazon.com", "delivered"⟩,
    llmDelivery := fun _ => .ok ⟨true, some 19730, some "amazon"⟩,
    readPackages := fun _ _ => .error (), userEmail := "u@g.com" }

def dbOnePkg : PkgDB := ⟨[pkgRec1], []⟩

def subRec1 : SubRecord :=
  { emailId := 1, userEmail := "u@g.com", subscriptionName := some "Netflix",
    amount := some "$9.99", billingDate := some ⟨2024, 1, 15⟩, reminderDay := 0 }

def emailSub1 : Email :=
  ⟨1, some (19735 * msPerDay), "Your subscription receipt", "billing@netflix.com",
   "subscription payment processed"⟩

/-- Subscription environment: one subscription-positive email with id 1. -/
def envSubDup : SubEnv :=
  { nowMs := 19740 * msPerDay, search := fun _ _ => .ok [1],
    fetch := fun _ => .ok emailSub1,
    llmSub := fun _ => .ok ⟨true, some "Netflix", some "$9.99", some ⟨2024, 1, 15⟩⟩,
    calendarCreate := fun _ => .ok 77, userEmail := "u@g.com" }

/-- A subscription store that already holds a record for email 1. -/
def dbSubDup : SubDB := ⟨[subRec1], [], []⟩

def dbSubEmpty : SubDB := ⟨[], [], []⟩

/-- Subscription environment whose one match bills on 2024-01-31. -/
def envSubJan31 : SubEnv :=
  { envSubDup with llmSub := fun _ => .ok ⟨true, some "Netflix", some "$9.99", some ⟨2024, 1, 31⟩⟩ }

def emailSub2 : Email :=
  ⟨2, some (19736 * msPerDay), "subscription", "b@x.com", "renewal charged"⟩

/-- Subscription environment with a fetch failure on email 1 and a
calendar-creation failure for every event. -/
def envSubFailures : SubEnv :=
  { nowMs := 19740 * msPerDay, search := fun _ _ => .ok [1, 2],
    fetch := fun id => if id == 2 then .ok emailSub2 else .error (),
    llmSub := fun _ => .ok ⟨true, some "Spotify", some "$5", some ⟨2024, 1, 10⟩⟩,
    calendarCreate := fun _ => .error (), userEmail := "u@g.com" }

/-- A persisted scanning state that is active and 1 second old at
instant 1000000. -/
def storedActiveFresh : StoredScanningState :=
  ⟨{ isScanning := true, progress := 50, message := "Scanning...",
     step := "scanning", startTime := some 0 }, 999000⟩

/-! ## C1: the gap-computation example -/

/-- C1, counterexample.  The claim states the reconciler returns
2024-01-01..2024-01-09 followed by 2024-01-21..2024-01-31 for a history
entry covering 2024-01-10..2024-01-20 and the request
2024-01-01..2024-01-31.  The code disagrees: the cursor advances by one
millisecond past the entry end, so the second range starts on 2024-01-20. -/
theorem c1_counterexample :
    ((getOptimizedScanRanges [historyEntryJan2024]
        (civilToDay 2024 1 1) (civilToDay 2024 1 31)).map
      (fun r => (r.startDate, r.endDate))) ≠
      [(some (civilToDay 2024 1 1), some (civilToDay 2024 1 9)),
       (some (civilToDay 2024 1 21), some (civilToDay 2024 1 31))] := by
  decide

/-! ## C9: the already-scanning guard -/

/-- C9: a start request for a category whose scanning state is active is
rejected with an already-scanning error, leaves the scanning state and
the database (hence the scan-history stream) untouched, and starts no
orchestrator run; this holds for both the package and the subscription
category. -/
theorem c9_theorem (stP stS : ScanningState) (nowMs : Nat) (envP : PkgEnv) (envS : SubEnv)
    (dbP : PkgDB) (dbS : SubDB) (s t : Nat)
    (hP : stP.isScanning = true) (hS : stS.isScanning = true) :
    handleProcessPackageEmails stP nowMs envP dbP s t =
      { response := { success := false, error := "Package scan already in progress" },
        state := stP, db := dbP, started := false } ∧
    handleScanSubscriptionEmails stS nowMs envS dbS =
      { response := { success := false, error := "Subscription scan already in progress" },
        state := stS, db := dbS, started := false } := by
  constructor
  · unfold handleProcessPackageEmails
    rw [if_pos hP]
  · unfold handleScanSubscriptionEmails
    rw [if_pos hS]

/-- C9, witness: the guard at a concrete active state. -/
theorem c9_witness :
    handleProcessPackageEmails storedActiveFresh.state 7 envNoEmails dbPkgEmpty 100 120 =
      { response := { success := false, error := "Package scan already in progress" },
        state := storedActiveFresh.state, db := dbPkgEmpty, started := false } ∧
    handleScanSubscriptionEmails storedActiveFresh.state 7 envSubDup dbSubEmpty =
      { response := { success := false, error := "Subscription scan already in progress" },
        state := storedActiveFresh.state, db := dbSubEmpty, started := false } :=
  c9_theorem storedActiveFresh.state storedActiveFresh.state 7 envNoEmails envSubDup
    dbPkgEmpty dbSubEmpty 100 120 (by decide) (by decide)

/-! ## C10: the existence check never fails -/

/-- C10: `emailExists` resolves to `false` whenever the underlying
storage read errors, for every input; consequently an id that is already
persisted is treated as absent under erroring reads and proceeds to
fetch, classify and persist (shown on a concrete run where the store
already holds a record for email 1 and a second record appears). -/
theorem c10_theorem :
    (∀ (e : Unit) (emailId : EmailId), emailExists (Except.error e) emailId = false) ∧
    1 ∈ dbOnePkg.packages.map (·.emailId) ∧
    (processPackageEmails envReadsError dbOnePkg 100 120).fetched = [1] ∧
    ((processPackageEmails envReadsError dbOnePkg 100 120).db.packages.filter
      (fun p => p.emailId == 1)).length = 2 := by
  refine ⟨fun e emailId => rfl, ?_, ?_, ?_⟩ <;> decide

/-! ## C5: startup handling of persisted scanning states -/

/-- C5, counterexample.  The claim states no persisted active status is
ever restored into the in-memory state on startup.  But
`loadScanningStates`, which runs at every evaluation of the background
module, restores a persisted active status that is younger than ten
minutes: here a 1-second-old active package state is restored. -/
theorem c5_counterexample :
    (loadScanningStates ⟨none, some storedActiveFresh⟩ 1000000
      ⟨cleanScanningState, cleanScanningState⟩).packageScanningState.isScanning = true := by
  decide

/-- C5, amended: `cleanupOnStartup` (run on worker activation)
unconditionally resets both in-memory states, removes the persisted
states and broadcasts a reset with the distinguished `cleanup` step; but
`loadScanningStates` (run at every evaluation of the background module)
restores a persisted active status younger than ten minutes into memory,
while an inactive or at-least-ten-minutes-old persisted status is not
restored. -/
theorem c5_amended (mem : BackgroundState) (storage : LocalStorage) (nowMs : Nat)
    (cur : ScanningState) (stored : StoredScanningState) :
    (cleanupOnStartup mem storage).mem = ⟨cleanScanningState, cleanScanningState⟩ ∧
    (cleanupOnStartup mem storage).storage = ⟨none, none⟩ ∧
    (cleanupOnStartup mem storage).broadcast =
      [mkEvent "cleanup" 0 "Extension reloaded - resetting scan states"] ∧
    (stored.state.isScanning = true → nowMs - stored.timestamp < tenMinutesMs →
      loadScanningState (some stored) nowMs cur = stored.state) ∧
    (stored.state.isScanning = false → loadScanningState (some stored) nowMs cur = cur) ∧
    (tenMinutesMs ≤ nowMs - stored.timestamp →
      loadScanningState (some stored) nowMs cur = cur) := by
  refine ⟨rfl, rfl, rfl, ?_, ?_, ?_⟩
  · intro hact hfresh
    simp [loadScanningState, hact, hfresh]
  · intro hinact
    simp [loadScanningState, hinact]
  · intro hstale
    simp [loadScanningState, Nat.not_lt.mpr hstale]

/-- C5, witness: the clauses of the amended claim at concrete inputs; in
particular a fresh active stored state is restored. -/
theorem c5_witness :
    (cleanupOnStartup ⟨cleanScanningState, cleanScanningState⟩
        ⟨none, some storedActiveFresh⟩).mem = ⟨cleanScanningState, cleanScanningState⟩ ∧
    loadScanningState (some storedActiveFresh) 1000000 cleanScanningState =
      storedActiveFresh.state :=
  ⟨(c5_amended ⟨cleanScanningState, cleanScanningState⟩ ⟨none, some storedActiveFresh⟩
      1000000 cleanScanningState storedActiveFresh).1,
   (c5_amended ⟨cleanScanningState, cleanScanningState⟩ ⟨none, some storedActiveFresh⟩
      1000000 cleanScanningState storedActiveFresh).2.2.2.1 (by decide) (by decide)⟩

/-! ## Store-invariance lemmas for the package pipeline -/

theorem processOneEmail_scanHistory (env : PkgEnv) (bn bd m i : Nat)
    (emailId : EmailId) (st : PkgScanState) :
    (processOneEmail env bn bd m i emailId st).db.scanHistory = st.db.scanHistory := by
  unfold processOneEmail
  cases hE : env.fetch emailId with
  | error e => simp [pushEvent]
  | ok email =>
    cases hD : email.dateMs with
    | none => simp [hD, pushEvent]
    | some ts =>
      simp only [hD, pushEvent]
      cases hX : extractDeliveryInfo (env.llmDelivery emailId) email.fromAddr (some ts) with
      | error e => simp
      | ok info =>
        by_cases hI : info.isDeliveryEmail = true <;> simp [hI]

theorem processEmailList_scanHistory (env : PkgEnv) (bn bd m : Nat)
    (ids : List EmailId) (i : Nat) (st : PkgScanState) :
    (processEmailList env bn bd m ids i st).db.scanHistory = st.db.scanHistory := by
  induction ids generalizing i st with
  | nil => rfl
  | cons id rest ih =>
    rw [processEmailList, ih, processOneEmail_scanHistory]

theorem processRange_scanHistory (env : PkgEnv) (n i : Nat) (range : ScanRange)
    (st : PkgScanState) :
    (processRange env n i range st).db.scanHistory = st.db.scanHistory := by
  unfold processRange
  by_cases hA : st.aborted = true
  · rw [if_pos hA]
  · rw [if_neg hA]
    cases hS : env.search (range.startDate.getD 0) (range.endDate.getD 0) with
    | error e => rfl
    | ok allEmailIds =>
      dsimp only [pushEvent]
      by_cases h0 : allEmailIds.length = 0
      · rw [if_pos h0]
      · rw [if_neg h0]
        by_cases h1 : (allEmailIds.filter
            (fun id => !(emailExists (env.readPackages st.db.packages id) id))).length = 0
        · rw [if_pos h1]
        · rw [if_neg h1, processEmailList_scanHistory]

theorem processRangesLoop_scanHistory (env : PkgEnv) (n : Nat) (ranges : List ScanRange)
    (i : Nat) (st : PkgScanState) :
    (processRangesLoop env n ranges i st).db.scanHistory = st.db.scanHistory := by
  induction ranges generalizing i st with
  | nil => rfl
  | cons r rest ih =>
    rw [processRangesLoop, ih, processRange_scanHistory]

/-! ## C3: one history entry per completed scan invocation -/

/-- C3, counterexample.  The claim states every completed scan appends
exactly one history entry, including scans that examined zero messages.
A scan over days 100..120 with an empty history and empty searches runs
to completion but appends no entry at all (the source only saves when
`totalEmailsScanned > 0`). -/
theorem c3_counterexample :
    (processPackageEmails envNoEmails dbPkgEmpty 100 120).ok = true ∧
    (processPackageEmails envNoEmails dbPkgEmpty 100 120).events.getLast? =
      some (mkEvent "complete" 100 "Scan complete") ∧
    (processPackageEmails envNoEmails dbPkgEmpty 100 120).db.scanHistory = [] := by
  refine ⟨?_, ?_, ?_⟩ <;> decide

/-- C3, amended: a scan invocation that runs its ranges to completion
appends exactly one ScanHistoryEntry — never one per sub-range — whose
requested start and end fields equal the caller's original requested
bounds, provided at least one message was examined; an invocation whose
searches examined zero messages appends no entry (so an empty window is
not recorded as covered). -/
theorem c3_amended (env : PkgEnv) (db : PkgDB) (s t : Nat)
    (hok : (processPackageEmails env db s t).ok = true) :
    (0 < (processPackageEmails env db s t).emailsScanned →
      ∃ entry, (processPackageEmails env db s t).db.scanHistory = db.scanHistory ++ [entry]
        ∧ entry.startDateRequested = s ∧ entry.endDateRequested = t
        ∧ entry.emailsScanned = (processPackageEmails env db s t).emailsScanned) ∧
    ((processPackageEmails env db s t).emailsScanned = 0 →
      (processPackageEmails env db s t).db.scanHistory = db.scanHistory) := by
  unfold processPackageEmails at hok ⊢
  dsimp only at hok ⊢
  by_cases hSent : (getOptimizedScanRanges db.scanHistory s t).length = 1 ∧
      ((getOptimizedScanRanges db.scanHistory s t).headD default).startDate = none
  · rw [if_pos hSent] at hok ⊢
    exact ⟨fun h => absurd h (by simp), fun _ => rfl⟩
  · rw [if_neg hSent] at hok ⊢
    set st := processRangesLoop env (getOptimizedScanRanges db.scanHistory s t).length
      (getOptimizedScanRanges db.scanHistory s t) 0
      { db := db, events := [mkEvent "optimizing" 5 "Checking scan history for optimization..."],
        totalEmailsScanned := 0, earliest := none, latest := none, processed := [],
        fetched := [], aborted := false } with hst
    have hhist : st.db.scanHistory = db.scanHistory := by
      rw [hst]
      exact processRangesLoop_scanHistory env _ _ 0 _
    by_cases hAb : st.aborted = true
    · rw [if_pos hAb] at hok
      simp at hok
    · rw [if_neg hAb]
      simp only [pushEvent]
      by_cases hTot : st.totalEmailsScanned > 0
      · rw [if_pos hTot]
        constructor
        · intro _
          refine ⟨{ scanDateMs := env.nowMs, emailsScanned := st.totalEmailsScanned,
                    earliestEmailTimestampMs := st.earliest.getD (s * msPerDay),
                    latestEmailTimestampMs := st.latest.getD (t * msPerDay),
                    startDateRequested := s, endDateRequested := t,
                    packagesFound := st.processed.length }, ?_, rfl, rfl, rfl⟩
          show st.db.scanHistory ++ _ = _
          rw [hhist]
        · intro h0
          dsimp only at h0
          exact absurd h0 (by omega)
      · rw [if_neg hTot]
        constructor
        · intro h
          dsimp only at h
          exact absurd h (by omega)
        · intro _
          exact hhist

/-- C3, witness: the amended claim at a concrete completed run (the
zero-message clause applies and no entry is appended). -/
theorem c3_witness :
    (processPackageEmails envNoEmails dbPkgEmpty 100 120).ok = true ∧
    ((processPackageEmails envNoEmails dbPkgEmpty 100 120).emailsScanned = 0 →
      (processPackageEmails envNoEmails dbPkgEmpty 100 120).db.scanHistory =
        dbPkgEmpty.scanHistory) :=
  ⟨by decide, (c3_amended envNoEmails dbPkgEmpty 100 120 (by decide)).2⟩

/-! ## C4 and C2 counterexamples -/

/-- C4, counterexample.  With two uncovered ranges the reported progress
values are not non-decreasing: the first range ends its filtering phase
at 80 while the second range's scanning phase starts at 48 (the run
completes and even reports 123 along the way). -/
theorem c4_counterexample :
    ¬ List.Chain' (· ≤ ·)
      ((processPackageEmails envTwoRanges dbTwoRanges 95 120).events.map (·.progress)) := by
  intro h
  have he : (processPackageEmails envTwoRanges dbTwoRanges 95 120).events.map (·.progress)
      = [5, 5, 10, 80, 48, 123, 90, 95, 100] := by decide
  rw [he] at h
  simp only [List.chain'_cons, List.chain'_singleton, and_true] at h
  omega

/-- The progress trace of the two-range run, for reference: the claim
fails at the transition from 80 back to 48 (and 123 exceeds 100). -/
theorem envTwoRanges_progressTrace :
    (processPackageEmails envTwoRanges dbTwoRanges 95 120).events.map (·.progress)
      = [5, 5, 10, 80, 48, 123, 90, 95, 100] := by decide

/-- C2, counterexample.  The claim states that for both record families
an id whose existence check is true is never fetched or classified and
never re-persisted.  The subscription scan performs no existence check
against the subscription store: email 1, already persisted, is passed to
the language model again and a second record for it is saved. -/
theorem c2_counterexample :
    1 ∈ dbSubDup.subscriptions.map (·.emailId) ∧
    1 ∈ (scanCurrentMonthSubscriptions envSubDup dbSubDup).analyzedIds ∧
    ((scanCurrentMonthSubscriptions envSubDup dbSubDup).db.subscriptions.filter
      (fun r => r.emailId == 1)).length = 2 := by
  refine ⟨?_, ?_, ?_⟩ <;> decide

/-! ## C7: the reminder-date law -/

theorem subProcessOneEmail_reminderRule (env : SubEnv) (total i : Nat)
    (emailId : EmailId) (st : SubScanState) (r : SubRecord)
    (hr : r ∈ (subProcessOneEmail env total i emailId st).db.subscriptions) :
    r ∈ st.db.subscriptions ∨
      r.reminderDay = jsAddOneMonthDay ((r.billingDate).getD epochCivil) := by
  unfold subProcessOneEmail at hr
  cases hE : env.fetch emailId with
  | error e =>
    simp only [hE, subPushEvent] at hr
    exact Or.inl hr
  | ok email =>
    simp only [hE, subPushEvent] at hr
    by_cases hP : isLikelySubscriptionEmail email = true
    · simp only [hP, Bool.not_true, Bool.false_eq_true, if_false] at hr
      cases hX : extractSubscriptionInfo (env.llmSub emailId) email.dateMs with
      | error e =>
        simp only [hX] at hr
        exact Or.inl hr
      | ok info =>
        simp only [hX] at hr
        by_cases hI : info.isSubscriptionEmail = true
        · simp only [hI, if_true] at hr
          rcases List.mem_append.mp hr with h | h
          · exact Or.inl h
          · rcases List.mem_singleton.mp h with rfl
            exact Or.inr rfl
        · simp only [hI, if_false] at hr
          exact Or.inl hr
    · simp only [hP] at hr
      simp at hr
      exact Or.inl hr

theorem subProcessEmails_reminderRule (env : SubEnv) (total : Nat) (ids : List EmailId)
    (i : Nat) (st : SubScanState) (r : SubRecord)
    (hr : r ∈ (subProcessEmails env total ids i st).db.subscriptions) :
    r ∈ st.db.subscriptions ∨
      r.reminderDay = jsAddOneMonthDay ((r.billingDate).getD epochCivil) := by
  induction ids generalizing i st with
  | nil => exact Or.inl hr
  | cons id rest ih =>
    rw [subProcessEmails] at hr
    rcases ih _ _ hr with h | h
    · exact subProcessOneEmail_reminderRule env total i id st r h
    · exact Or.inr h

theorem subCreateEventsLoop_subscriptions (env : SubEnv) (ms : List SubMatch)
    (st : SubEventLoopState) :
    (subCreateEventsLoop env ms st).db.subscriptions = st.db.subscriptions := by
  induction ms generalizing st with
  | nil => rfl
  | cons m rest ih =>
    rw [subCreateEventsLoop, ih]
    by_cases hC : calendarEventExists st.db m.emailId = true
    · rw [if_pos hC]
    · rw [if_neg hC]
      cases hCal : env.calendarCreate m.emailId <;> simp

theorem subCreateEventsLoop_calRequests (env : SubEnv) (ms : List SubMatch)
    (st : SubEventLoopState) (p : CalRequest)
    (hp : p ∈ (subCreateEventsLoop env ms st).calRequests) :
    p ∈ st.calRequests ∨
      p.requestedDay = jsAddOneMonthDay ((p.billingUsed).getD epochCivil) := by
  induction ms generalizing st with
  | nil => exact Or.inl hp
  | cons m rest ih =>
    rw [subCreateEventsLoop] at hp
    rcases ih _ hp with h | h
    · by_cases hC : calendarEventExists st.db m.emailId = true
      · rw [if_pos hC] at h
        exact Or.inl h
      · rw [if_neg hC] at h
        cases hCal : env.calendarCreate m.emailId with
        | error e =>
          simp only [hCal] at h
          rcases List.mem_append.mp h with h2 | h2
          · exact Or.inl h2
          · rcases List.mem_singleton.mp h2 with rfl
            exact Or.inr rfl
        | ok eid =>
          simp only [hCal] at h
          rcases List.mem_append.mp h with h2 | h2
          · exact Or.inl h2
          · rcases List.mem_singleton.mp h2 with rfl
            exact Or.inr rfl
    · exact Or.inr h

/-- C7: every SubscriptionRecord persisted by a scan with a non-null
billing date has `reminderDay` equal to the billing date advanced by one
calendar month under the JavaScript setMonth overflow rule
(`jsAddOneMonthDay`: day-of-month kept, overflow rolling into the
following month); and every calendar-event creation request issued by the
same scan derives its date from the billing date by the same rule, so the
recomputation in `createSubscriptionReminderEvent` can never disagree
with the persisted field, which itself is never mutated. -/
theorem c7_theorem (env : SubEnv) (db : SubDB) (r : SubRecord) (d : CivilDate)
    (hmem : r ∈ (scanCurrentMonthSubscriptions env db).db.subscriptions)
    (hnew : r ∉ db.subscriptions) (hbil : r.billingDate = some d) :
    r.reminderDay = jsAddOneMonthDay d ∧
    ∀ p ∈ (scanCurrentMonthSubscriptions env db).calRequests,
      p.requestedDay = jsAddOneMonthDay ((p.billingUsed).getD epochCivil) := by
  unfold scanCurrentMonthSubscriptions at hmem ⊢
  cases hS : env.search (subScanWindow env db).1 (subScanWindow env db).2 with
  | error e =>
    simp only [hS] at hmem
    exact absurd hmem hnew
  | ok emailIds =>
    simp only [hS] at hmem ⊢
    by_cases hLen : emailIds.length = 0
    · rw [if_pos hLen] at hmem
      exact absurd hmem hnew
    · rw [if_neg hLen] at hmem ⊢
      constructor
      · dsimp only [subPushEvent] at hmem
        rw [subCreateEventsLoop_subscriptions] at hmem
        dsimp only at hmem
        rcases subProcessEmails_reminderRule env emailIds.length emailIds 0 _ r hmem
          with h | h
        · exact absurd h hnew
        · rw [hbil] at h
          exact h
      · intro p hp
        dsimp only [subPushEvent] at hp
        rcases subCreateEventsLoop_calRequests env _ _ p hp with h | h
        · exact absurd h (List.not_mem_nil p)
        · exact h

/-- C7, witness: the month-end example.  Billing 2024-01-31 yields the
persisted reminder day `jsAddOneMonthDay ⟨2024,1,31⟩`, which is
2024-03-02 (2024 is a leap year), and all calendar requests of the run
use the same rule. -/
theorem c7_witness :
    ({ emailId := 1, userEmail := "u@g.com", subscriptionName := some "Netflix",
       amount := some "$9.99", billingDate := some ⟨2024, 1, 31⟩,
       reminderDay := 19784 } : SubRecord).reminderDay = jsAddOneMonthDay ⟨2024, 1, 31⟩ ∧
    (∀ p ∈ (scanCurrentMonthSubscriptions envSubJan31 dbSubEmpty).calRequests,
      p.requestedDay = jsAddOneMonthDay ((p.billingUsed).getD epochCivil)) ∧
    jsAddOneMonthDay ⟨2024, 1, 31⟩ = civilToDay 2024 3 2 :=
  ⟨(c7_theorem envSubJan31 dbSubEmpty _ ⟨2024, 1, 31⟩ (by decide) (by decide) rfl).1,
   (c7_theorem envSubJan31 dbSubEmpty
      { emailId := 1, userEmail := "u@g.com", subscriptionName := some "Netflix",
        amount := some "$9.99", billingDate := some ⟨2024, 1, 31⟩, reminderDay := 19784 }
      ⟨2024, 1, 31⟩ (by decide) (by decide) rfl).2,
   by decide⟩

/-! ## C8: per-item failures are caught and skipped -/

theorem subProcessOneEmail_calendarFree (env : SubEnv) (f : EmailId → Except Unit Nat)
    (total i : Nat) (emailId : EmailId) (st : SubScanState) :
    subProcessOneEmail { env with calendarCreate := f } total i emailId st =
      subProcessOneEmail env total i emailId st := rfl

theorem subProcessEmails_calendarFree (env : SubEnv) (f : EmailId → Except Unit Nat)
    (total : Nat) (ids : List EmailId) (i : Nat) (st : SubScanState) :
    subProcessEmails { env with calendarCreate := f } total ids i st =
      subProcessEmails env total ids i st := by
  induction ids generalizing i st with
  | nil => rfl
  | cons id rest ih =>
    rw [subProcessEmails, subProcessEmails, subProcessOneEmail_calendarFree, ih]

theorem processOneEmail_aborted (env : PkgEnv) (bn bd m i : Nat)
    (emailId : EmailId) (st : PkgScanState) :
    (processOneEmail env bn bd m i emailId st).aborted = st.aborted := by
  unfold processOneEmail
  cases hE : env.fetch emailId with
  | error e => simp [pushEvent]
  | ok email =>
    cases hD : email.dateMs with
    | none => simp [hD, pushEvent]
    | some ts =>
      simp only [hD, pushEvent]
      cases hX : extractDeliveryInfo (env.llmDelivery emailId) email.fromAddr (some ts) with
      | error e => simp
      | ok info =>
        by_cases hI : info.isDeliveryEmail = true <;> simp [hI]

theorem processEmailList_aborted (env : PkgEnv) (bn bd m : Nat)
    (ids : List EmailId) (i : Nat) (st : PkgScanState) :
    (processEmailList env bn bd m ids i st).aborted = st.aborted := by
  induction ids generalizing i st with
  | nil => rfl
  | cons id rest ih =>
    rw [processEmailList, ih, processOneEmail_aborted]

theorem processRange_notAborted (env : PkgEnv) (n i : Nat) (range : ScanRange)
    (st : PkgScanState) (hs : ∀ a b, ∃ l, env.search a b = Except.ok l) :
    (processRange env n i range st).aborted = st.aborted := by
  unfold processRange
  by_cases hA : st.aborted = true
  · rw [if_pos hA]
  · rw [if_neg hA]
    obtain ⟨l, hl⟩ := hs (range.startDate.getD 0) (range.endDate.getD 0)
    rw [hl]
    dsimp only [pushEvent]
    by_cases h0 : l.length = 0
    · rw [if_pos h0]
    · rw [if_neg h0]
      by_cases h1 : (l.filter
          (fun id => !(emailExists (env.readPackages st.db.packages id) id))).length = 0
      · rw [if_pos h1]
      · rw [if_neg h1, processEmailList_aborted]

theorem processRangesLoop_notAborted (env : PkgEnv) (n : Nat) (ranges : List ScanRange)
    (i : Nat) (st : PkgScanState) (hs : ∀ a b, ∃ l, env.search a b = Except.ok l) :
    (processRangesLoop env n ranges i st).aborted = st.aborted := by
  induction ranges generalizing i st with
  | nil => rfl
  | cons r rest ih =>
    rw [processRangesLoop, ih, processRange_notAborted env n i r st hs]

/-- C8: when the search capability succeeds, the subscription scan always
runs to a successful completion regardless of any per-item fetch,
classification or calendar failure; moreover the set of persisted
subscription records is independent of the calendar capability entirely
(a failed calendar event leaves the classification result persisted, only
the event missing); the same absence of per-item aborts holds for the
package scan. -/
theorem c8_theorem (env : SubEnv) (db : SubDB)
    (hsearch : ∀ a b, ∃ l, env.search a b = Except.ok l) :
    (scanCurrentMonthSubscriptions env db).ok = true ∧
    (∀ f : EmailId → Except Unit Nat,
      (scanCurrentMonthSubscriptions { env with calendarCreate := f } db).db.subscriptions
        = (scanCurrentMonthSubscriptions env db).db.subscriptions) ∧
    (∀ (envP : PkgEnv) (dbP : PkgDB) (s t : Nat),
      (∀ a b, ∃ l, envP.search a b = Except.ok l) →
      (processPackageEmails envP dbP s t).ok = true) := by
  obtain ⟨l, hl⟩ := hsearch (subScanWindow env db).1 (subScanWindow env db).2
  refine ⟨?_, ?_, ?_⟩
  · unfold scanCurrentMonthSubscriptions
    dsimp only
    rw [hl]
    dsimp only
    by_cases h0 : l.length = 0
    · rw [if_pos h0]
    · rw [if_neg h0]
  · intro f
    unfold scanCurrentMonthSubscriptions
    dsimp only
    have hw : subScanWindow { env with calendarCreate := f } db = subScanWindow env db := rfl
    rw [hw, hl]
    dsimp only
    by_cases h0 : l.length = 0
    · simp only [if_pos h0]
    · simp only [if_neg h0]
      dsimp only [subPushEvent]
      rw [subProcessEmails_calendarFree]
      rw [subCreateEventsLoop_subscriptions, subCreateEventsLoop_subscriptions]
  · intro envP dbP s t hsP
    unfold processPackageEmails
    dsimp only
    by_cases hSent : (getOptimizedScanRanges dbP.scanHistory s t).length = 1 ∧
        ((getOptimizedScanRanges dbP.scanHistory s t).headD default).startDate = none
    · rw [if_pos hSent]
    · rw [if_neg hSent]
      have hnab : (processRangesLoop envP (getOptimizedScanRanges dbP.scanHistory s t).length
          (getOptimizedScanRanges dbP.scanHistory s t) 0
          { db := dbP,
            events := [mkEvent "optimizing" 5 "Checking scan history for optimization..."],
            totalEmailsScanned := 0, earliest := none, latest := none, processed := [],
            fetched := [], aborted := false }).aborted = false :=
        processRangesLoop_notAborted envP _ _ 0 _ hsP
      rw [if_neg (by rw [hnab]; exact Bool.false_ne_true)]

/-- C8, witness: a run with a failing fetch on email 1 and a calendar
capability that always fails still completes, and its persisted
subscriptions agree with the run whose calendar capability succeeds. -/
theorem c8_witness :
    (scanCurrentMonthSubscriptions envSubFailures dbSubEmpty).ok = true ∧
    (scanCurrentMonthSubscriptions { envSubFailures with calendarCreate := fun _ => .ok 99 }
        dbSubEmpty).db.subscriptions
      = (scanCurrentMonthSubscriptions envSubFailures dbSubEmpty).db.subscriptions ∧
    (processPackageEmails envNoEmails dbPkgEmpty 100 120).ok = true :=
  ⟨(c8_theorem envSubFailures dbSubEmpty (fun _ _ => ⟨[1, 2], rfl⟩)).1,
   (c8_theorem envSubFailures dbSubEmpty (fun _ _ => ⟨[1, 2], rfl⟩)).2.1 _,
   (c8_theorem envSubFailures dbSubEmpty (fun _ _ => ⟨[1, 2], rfl⟩)).2.2 envNoEmails
     dbPkgEmpty 100 120 (fun _ _ => ⟨[], rfl⟩)⟩

/-! ## C2: the delivery-side dedup gate -/

theorem any_eq_true_iff_filter_ne_nil {α : Type} (l : List α) (p : α → Bool) :
    l.any p = true ↔ l.filter p ≠ [] := by
  rw [List.any_eq_true]
  constructor
  · rintro ⟨x, hx, hpx⟩ hnil
    have hmem : x ∈ l.filter p := List.mem_filter.mpr ⟨hx, hpx⟩
    rw [hnil] at hmem
    exact List.not_mem_nil x hmem
  · intro hne
    rcases List.exists_mem_of_ne_nil _ hne with ⟨x, hx⟩
    rcases List.mem_filter.mp hx with ⟨hxl, hpx⟩
    exact ⟨x, hxl, hpx⟩

theorem processOneEmail_dedup (env : PkgEnv) (bn bd m i : Nat) (eid : EmailId)
    (st : PkgScanState) (id : EmailId) (hne : eid ≠ id) :
    (id ∈ (processOneEmail env bn bd m i eid st).fetched ↔ id ∈ st.fetched) ∧
    (processOneEmail env bn bd m i eid st).db.packages.filter (fun p => p.emailId == id)
      = st.db.packages.filter (fun p => p.emailId == id) := by
  have hid : id ≠ eid := Ne.symm hne
  have hbe : (eid == id) = false := by simp [hne]
  unfold processOneEmail
  cases hE : env.fetch eid with
  | error e =>
    dsimp only [pushEvent]
    exact ⟨by simp [hid], rfl⟩
  | ok email =>
    cases hD : email.dateMs with
    | none =>
      simp only [hD, pushEvent]
      exact ⟨by simp [hid], by trivial⟩
    | some ts =>
      simp only [hD, pushEvent]
      cases hX : extractDeliveryInfo (env.llmDelivery eid) email.fromAddr (some ts) with
      | error e => exact ⟨by simp [hid], by trivial⟩
      | ok info =>
        by_cases hI : info.isDeliveryEmail = true
        · simp only [hI, if_true]
          refine ⟨by simp [hid], ?_⟩
          dsimp only
          rw [List.filter_append]
          simp [hbe]
        · simp only [hI, if_false]
          exact ⟨by simp [hid], by trivial⟩

theorem processEmailList_dedup (env : PkgEnv) (bn bd m : Nat) (ids : List EmailId)
    (i : Nat) (st : PkgScanState) (id : EmailId) :
    id ∉ ids →
    (id ∈ (processEmailList env bn bd m ids i st).fetched ↔ id ∈ st.fetched) ∧
    (processEmailList env bn bd m ids i st).db.packages.filter (fun p => p.emailId == id)
      = st.db.packages.filter (fun p => p.emailId == id) := by
  induction ids generalizing i st with
  | nil => exact fun _ => ⟨Iff.rfl, rfl⟩
  | cons e rest ih =>
    intro hni
    have hne : e ≠ id := fun h => hni (h ▸ List.mem_cons_self e rest)
    have hrest : id ∉ rest := fun h => hni (List.mem_cons_of_mem e h)
    rw [processEmailList]
    have h1 := processOneEmail_dedup env bn bd m i e st id hne
    have h2 := ih (i + 1) (processOneEmail env bn bd m i e st) hrest
    exact ⟨h2.1.trans h1.1, h2.2.trans h1.2⟩

theorem processRange_dedup (env : PkgEnv) (n i : Nat) (range : ScanRange)
    (st : PkgScanState) (id : EmailId)
    (hread : env.readPackages = fun ps _ => Except.ok ps)
    (hmem : st.db.packages.any (fun p => p.emailId == id) = true) :
    (id ∈ (processRange env n i range st).fetched ↔ id ∈ st.fetched) ∧
    (processRange env n i range st).db.packages.filter (fun p => p.emailId == id)
      = st.db.packages.filter (fun p => p.emailId == id) := by
  unfold processRange
  by_cases hA : st.aborted = true
  · rw [if_pos hA]
    exact ⟨Iff.rfl, rfl⟩
  · rw [if_neg hA]
    cases hS : env.search (range.startDate.getD 0) (range.endDate.getD 0) with
    | error e => exact ⟨Iff.rfl, rfl⟩
    | ok allEmailIds =>
      dsimp only [pushEvent]
      by_cases h0 : allEmailIds.length = 0
      · rw [if_pos h0]
        exact ⟨Iff.rfl, rfl⟩
      · rw [if_neg h0]
        by_cases h1 : (allEmailIds.filter
            (fun x => !(emailExists (env.readPackages st.db.packages x) x))).length = 0
        · rw [if_pos h1]
          exact ⟨Iff.rfl, rfl⟩
        · rw [if_neg h1]
          refine processEmailList_dedup env (i * 85) n _ _ 0 _ id ?_
          intro hin
          rcases List.mem_filter.mp hin with ⟨hidall, hnotex⟩
          rw [hread] at hnotex
          simp [emailExists, hmem] at hnotex

theorem processRangesLoop_dedup (env : PkgEnv) (n : Nat) (ranges : List ScanRange)
    (i : Nat) (st : PkgScanState) (id : EmailId)
    (hread : env.readPackages = fun ps _ => Except.ok ps) :
    st.db.packages.any (fun p => p.emailId == id) = true →
    (id ∈ (processRangesLoop env n ranges i st).fetched ↔ id ∈ st.fetched) ∧
    (processRangesLoop env n ranges i st).db.packages.filter (fun p => p.emailId == id)
      = st.db.packages.filter (fun p => p.emailId == id) := by
  induction ranges generalizing i st with
  | nil => exact fun _ => ⟨Iff.rfl, rfl⟩
  | cons r rest ih =>
    intro hmem
    rw [processRangesLoop]
    have h1 := processRange_dedup env n i r st id hread hmem
    have hmem2 : (processRange env n i r st).db.packages.any
        (fun p => p.emailId == id) = true := by
      rw [any_eq_true_iff_filter_ne_nil, h1.2]
      exact (any_eq_true_iff_filter_ne_nil _ _).mp hmem
    have h2 := ih (i + 1) (processRange env n i r st) hmem2
    exact ⟨h2.1.trans h1.1, h2.2.trans h1.2⟩

/-- C2, amended: for the delivery family the dedup gate holds — an id
already present in the package store is never passed to fetch (hence
never classified) during a scan, and the store keeps exactly the records
it already had for that id; since records are only ever appended, the
same holds for every later scan.  (The subscription family has no such
gate; see the counterexample.) -/
theorem c2_amended (env : PkgEnv) (db : PkgDB) (s t : Nat) (id : EmailId)
    (hread : env.readPackages = fun ps _ => Except.ok ps)
    (hid : id ∈ db.packages.map (·.emailId)) :
    id ∉ (processPackageEmails env db s t).fetched ∧
    (processPackageEmails env db s t).db.packages.filter (fun p => p.emailId == id)
      = db.packages.filter (fun p => p.emailId == id) := by
  have hany : db.packages.any (fun p => p.emailId == id) = true := by
    rw [List.any_eq_true]
    rcases List.mem_map.mp hid with ⟨p, hp, hpe⟩
    exact ⟨p, hp, by simp [hpe]⟩
  unfold processPackageEmails
  dsimp only
  by_cases hSent : (getOptimizedScanRanges db.scanHistory s t).length = 1 ∧
      ((getOptimizedScanRanges db.scanHistory s t).headD default).startDate = none
  · rw [if_pos hSent]
    exact ⟨List.not_mem_nil id, rfl⟩
  · rw [if_neg hSent]
    set st := processRangesLoop env (getOptimizedScanRanges db.scanHistory s t).length
      (getOptimizedScanRanges db.scanHistory s t) 0
      { db := db, events := [mkEvent "optimizing" 5 "Checking scan history for optimization..."],
        totalEmailsScanned := 0, earliest := none, latest := none, processed := [],
        fetched := [], aborted := false } with hst
    have h := processRangesLoop_dedup env (getOptimizedScanRanges db.scanHistory s t).length
      (getOptimizedScanRanges db.scanHistory s t) 0
      { db := db, events := [mkEvent "optimizing" 5 "Checking scan history for optimization..."],
        totalEmailsScanned := 0, earliest := none, latest := none, processed := [],
        fetched := [], aborted := false } id hread hany
    rw [← hst] at h
    by_cases hAb : st.aborted = true
    · rw [if_pos hAb]
      refine ⟨?_, h.2⟩
      intro hin
      exact absurd (h.1.mp hin) (List.not_mem_nil id)
    · rw [if_neg hAb]
      dsimp only [pushEvent]
      by_cases hTot : st.totalEmailsScanned > 0
      · rw [if_pos hTot]
        refine ⟨?_, h.2⟩
        intro hin
        exact absurd (h.1.mp hin) (List.not_mem_nil id)
      · rw [if_neg hTot]
        refine ⟨?_, h.2⟩
        intro hin
        exact absurd (h.1.mp hin) (List.not_mem_nil id)

/-- C2, witness: the amended claim at the two-range scenario, whose
package store already holds email 1. -/
theorem c2_witness :
    1 ∉ (processPackageEmails envTwoRanges dbTwoRanges 95 120).fetched ∧
    (processPackageEmails envTwoRanges dbTwoRanges 95 120).db.packages.filter
      (fun p => p.emailId == 1)
      = dbTwoRanges.packages.filter (fun p => p.emailId == 1) :=
  c2_amended envTwoRanges dbTwoRanges 95 120 1 rfl (by decide)

/-! ## C6: the fully-covered sentinel -/

theorem mem_insertSortedBy {α : Type} (le : α → α → Bool) (x a : α) (l : List α) :
    a ∈ insertSortedBy le x l ↔ a = x ∨ a ∈ l := by
  induction l with
  | nil => simp [insertSortedBy]
  | cons y ys ih =>
    rw [insertSortedBy]
    by_cases h : le x y = true
    · rw [if_pos h]
      simp only [List.mem_cons]
    · rw [if_neg h]
      simp only [List.mem_cons, ih]
      tauto

theorem mem_sortListBy {α : Type} (le : α → α → Bool) (a : α) (l : List α) :
    a ∈ sortListBy le l ↔ a ∈ l := by
  induction l with
  | nil => simp [sortListBy]
  | cons x xs ih =>
    rw [sortListBy, mem_insertSortedBy]
    simp only [List.mem_cons, ih]

theorem pairwise_insertSortedBy {α : Type} (le : α → α → Bool)
    (htot : ∀ a b, le a b = true ∨ le b a = true)
    (htrans : ∀ a b c, le a b = true → le b c = true → le a c = true)
    (x : α) (l : List α) (hl : l.Pairwise (fun a b => le a b = true)) :
    (insertSortedBy le x l).Pairwise (fun a b => le a b = true) := by
  induction l with
  | nil => simp [insertSortedBy]
  | cons y ys ih =>
    rw [insertSortedBy]
    rcases List.pairwise_cons.mp hl with ⟨hy, hys⟩
    by_cases h : le x y = true
    · rw [if_pos h]
      refine List.pairwise_cons.mpr ⟨?_, hl⟩
      intro b hb
      rcases List.mem_cons.mp hb with rfl | hb2
      · exact h
      · exact htrans x y b h (hy b hb2)
    · rw [if_neg h]
      refine List.pairwise_cons.mpr ⟨?_, ih hys⟩
      intro b hb
      rcases (mem_insertSortedBy le x b ys).mp hb with rfl | hb2
      · rcases htot b y with hxy | hyx
        · exact absurd hxy h
        · exact hyx
      · exact hy b hb2

theorem pairwise_sortListBy {α : Type} (le : α → α → Bool)
    (htot : ∀ a b, le a b = true ∨ le b a = true)
    (htrans : ∀ a b c, le a b = true → le b c = true → le a c = true)
    (l : List α) :
    (sortListBy le l).Pairwise (fun a b => le a b = true) := by
  induction l with
  | nil => exact List.Pairwise.nil
  | cons x xs ih => exact pairwise_insertSortedBy le htot htrans x _ ih

theorem sweepRanges_append (l₁ l₂ : List ScanHistoryEntry) (c : Nat) :
    sweepRanges (l₁ ++ l₂) c =
      ((sweepRanges l₁ c).1 ++ (sweepRanges l₂ (sweepRanges l₁ c).2).1,
       (sweepRanges l₂ (sweepRanges l₁ c).2).2) := by
  induction l₁ generalizing c with
  | nil => simp [sweepRanges]
  | cons e rest ih =>
    rw [List.cons_append, sweepRanges, sweepRanges, ih]
    simp [List.append_assoc]

theorem sweepRanges_cursor_mono (l : List ScanHistoryEntry) (c : Nat) :
    c ≤ (sweepRanges l c).2 := by
  induction l generalizing c with
  | nil => exact Nat.le_refl c
  | cons e rest ih =>
    rw [sweepRanges]
    exact Nat.le_trans (Nat.le_max_left _ _) (ih _)

theorem sweepRanges_no_gaps (l : List ScanHistoryEntry) (c : Nat)
    (h : ∀ e ∈ l, e.startDateRequested * msPerDay ≤ c) :
    (sweepRanges l c).1 = [] := by
  induction l generalizing c with
  | nil => rfl
  | cons e rest ih =>
    rw [sweepRanges]
    dsimp only
    rw [if_neg (Nat.not_lt.mpr (h e (List.mem_cons_self e rest)))]
    rw [List.nil_append]
    exact ih _ (fun f hf =>
      Nat.le_trans (h f (List.mem_cons_of_mem e hf)) (Nat.le_max_left _ _))

/-- C6: whenever some history entry's requested bounds contain the
requested window, `getOptimizedScanRanges` returns the distinct
fully-covered sentinel (null bounds) and nothing else, and
`processPackageEmails` then transitions directly to `complete` with no
search or fetch, leaving the database untouched. -/
theorem c6_theorem (env : PkgEnv) (packages : List PackageRecord)
    (history : List ScanHistoryEntry) (e : ScanHistoryEntry) (s t : Nat)
    (hmem : e ∈ history) (hst : s ≤ t)
    (h1 : e.startDateRequested ≤ s) (h2 : t ≤ e.endDateRequested) :
    getOptimizedScanRanges history s t =
      [{ startDate := none, endDate := none, reason := "Range already fully scanned" }] ∧
    processPackageEmails env ⟨packages, history⟩ s t =
      { events := [mkEvent "optimizing" 5 "Checking scan history for optimization...",
          mkEvent "complete" 100 "Date range already fully scanned. No new emails to process."],
        db := ⟨packages, history⟩, ok := true, returned := [], fetched := [],
        emailsScanned := 0 } := by
  have hsMs : e.startDateRequested * msPerDay ≤ s * msPerDay :=
    Nat.mul_le_mul_right _ h1
  have htMs : t * msPerDay ≤ e.endDateRequested * msPerDay :=
    Nat.mul_le_mul_right _ h2
  have hstMs : s * msPerDay ≤ t * msPerDay := Nat.mul_le_mul_right _ hst
  have hovStart : ∀ b : ScanHistoryEntry,
      overlapsRequested (s * msPerDay) (t * msPerDay) b = true →
      b.startDateRequested * msPerDay ≤ t * msPerDay := by
    intro b hb
    simp only [overlapsRequested, Bool.not_eq_true', Bool.or_eq_false_iff,
      decide_eq_false_iff_not, Nat.not_lt] at hb
    exact hb.2
  have hov : overlapsRequested (s * msPerDay) (t * msPerDay) e = true := by
    simp only [overlapsRequested, Bool.not_eq_true', Bool.or_eq_false_iff,
      decide_eq_false_iff_not, Nat.not_lt]
    exact ⟨Nat.le_trans hstMs htMs, Nat.le_trans hsMs hstMs⟩
  have hsent : getOptimizedScanRanges history s t =
      [{ startDate := none, endDate := none, reason := "Range already fully scanned" }] := by
    unfold getOptimizedScanRanges
    dsimp only
    have hmemOv : e ∈ (getScanHistory history).filter
        (overlapsRequested (s * msPerDay) (t * msPerDay)) :=
      List.mem_filter.mpr ⟨(mem_sortListBy _ e history).mpr hmem, hov⟩
    rw [if_neg (by
      intro hemp
      rw [List.isEmpty_iff] at hemp
      rw [hemp] at hmemOv
      exact List.not_mem_nil e hmemOv)]
    set ovl := (getScanHistory history).filter
      (overlapsRequested (s * msPerDay) (t * msPerDay)) with hovl
    set sorted := sortListBy
      (fun a b : ScanHistoryEntry => decide (a.startDateRequested ≤ b.startDateRequested))
      ovl with hsorted
    have hmemS : e ∈ sorted := by
      rw [hsorted, mem_sortListBy]
      exact hmemOv
    obtain ⟨l₁, l₂, hdec⟩ := List.append_of_mem hmemS
    have hpw := pairwise_sortListBy
      (fun a b : ScanHistoryEntry => decide (a.startDateRequested ≤ b.startDateRequested))
      (fun a b => by
        rcases Nat.le_total a.startDateRequested b.startDateRequested with h | h
        · exact Or.inl (decide_eq_true h)
        · exact Or.inr (decide_eq_true h))
      (fun a b c hab hbc =>
        decide_eq_true (Nat.le_trans (of_decide_eq_true hab) (of_decide_eq_true hbc)))
      ovl
    rw [← hsorted] at hpw
    rw [hdec] at hpw
    rcases List.pairwise_append.mp hpw with ⟨hpw1, hpw2, hcross⟩
    have hl₁ : ∀ a ∈ l₁, a.startDateRequested * msPerDay ≤ s * msPerDay := by
      intro a ha
      have := hcross a ha e (List.mem_cons_self e l₂)
      have hae : a.startDateRequested ≤ e.startDateRequested := of_decide_eq_true this
      exact Nat.le_trans (Nat.mul_le_mul_right _ (Nat.le_trans hae h1)) (Nat.le_refl _)
    have hl₂ : ∀ b ∈ l₂, b.startDateRequested * msPerDay ≤ t * msPerDay := by
      intro b hb
      have hbmem : b ∈ ovl := by
        rw [hovl]
        have : b ∈ sorted := by
          rw [hdec]
          exact List.mem_append.mpr (Or.inr (List.mem_cons_of_mem e hb))
        rw [hsorted, mem_sortListBy] at this
        exact this
      exact hovStart b (List.mem_filter.mp hbmem).2
    have hsw := sweepRanges_append l₁ (e :: l₂) (s * msPerDay)
    rw [hdec, hsw]
    have hga : (sweepRanges l₁ (s * msPerDay)).1 = [] :=
      sweepRanges_no_gaps l₁ (s * msPerDay) hl₁
    have hc1 : s * msPerDay ≤ (sweepRanges l₁ (s * msPerDay)).2 :=
      sweepRanges_cursor_mono l₁ (s * msPerDay)
    rw [hga]
    rw [sweepRanges]
    dsimp only
    rw [if_neg (Nat.not_lt.mpr (Nat.le_trans hsMs hc1))]
    have hends : t * msPerDay + 1 ≤ e.endDateRequested * msPerDay + 1 :=
      Nat.succ_le_succ htMs
    have hc2 : e.endDateRequested * msPerDay + 1 ≤
        max (sweepRanges l₁ (s * msPerDay)).2 (e.endDateRequested * msPerDay + 1) :=
      Nat.le_max_right _ _
    have hgb : (sweepRanges l₂
        (max (sweepRanges l₁ (s * msPerDay)).2 (e.endDateRequested * msPerDay + 1))).1 = [] :=
      sweepRanges_no_gaps l₂ _ (fun b hb =>
        Nat.le_trans (hl₂ b hb)
          (Nat.le_trans (Nat.le_trans (Nat.le_succ _) hends) hc2))
    rw [List.nil_append, hgb]
    have hfinal : t * msPerDay <
        (sweepRanges l₂
          (max (sweepRanges l₁ (s * msPerDay)).2 (e.endDateRequested * msPerDay + 1))).2 := by
      have := sweepRanges_cursor_mono l₂
        (max (sweepRanges l₁ (s * msPerDay)).2 (e.endDateRequested * msPerDay + 1))
      omega
    rw [if_neg (Nat.not_le.mpr hfinal)]
    rfl
  refine ⟨hsent, ?_⟩
  unfold processPackageEmails
  dsimp only
  rw [hsent]
  rw [if_pos ⟨rfl, rfl⟩]
  rfl

/-- C6, witness: days 100..120 inside an entry covering 90..130. -/
theorem c6_witness :
    getOptimizedScanRanges [histDays90to130] 100 120 =
      [{ startDate := none, endDate := none, reason := "Range already fully scanned" }] ∧
    processPackageEmails envNoEmails ⟨[], [histDays90to130]⟩ 100 120 =
      { events := [mkEvent "optimizing" 5 "Checking scan history for optimization...",
          mkEvent "complete" 100 "Date range already fully scanned. No new emails to process."],
        db := ⟨[], [histDays90to130]⟩, ok := true, returned := [], fetched := [],
        emailsScanned := 0 } :=
  c6_theorem envNoEmails [] [histDays90to130] histDays90to130 100 120
    (by decide) (by decide) (by decide) (by decide)

/-! ## C4: progress monotonicity for single-range runs -/

theorem roundFrac_mono (a b d : Nat) (h : a ≤ b) : roundFrac a d ≤ roundFrac b d := by
  unfold roundFrac
  exact Nat.div_le_div_right (by omega)

theorem roundFrac_mul_cancel (c m : Nat) (hm : 0 < m) : roundFrac (c * m) m = c := by
  unfold roundFrac
  have h : 2 * (c * m) + m = (2 * c + 1) * m := by ring
  rw [h, Nat.mul_div_mul_right _ _ hm]
  omega

theorem procEvent_progress (m i : Nat) :
    (procEvent 0 1 m i).progress = roundFrac (15 * m + 65 * (i + 1)) m := by
  simp only [procEvent, mkEvent]
  congr 1 <;> ring

theorem procEvent_progress_ge (m i : Nat) (hm : 0 < m) :
    15 ≤ (procEvent 0 1 m i).progress := by
  rw [procEvent_progress]
  calc 15 = roundFrac (15 * m) m := (roundFrac_mul_cancel 15 m hm).symm
    _ ≤ roundFrac (15 * m + 65 * (i + 1)) m := roundFrac_mono _ _ _ (by omega)

theorem procEvent_progress_le (m i : Nat) (hm : 0 < m) (hi : i < m) :
    (procEvent 0 1 m i).progress ≤ 80 := by
  rw [procEvent_progress]
  calc roundFrac (15 * m + 65 * (i + 1)) m
      ≤ roundFrac (80 * m) m := roundFrac_mono _ _ _ (by omega)
    _ = 80 := roundFrac_mul_cancel 80 m hm

theorem procEvent_progress_mono (m i : Nat) :
    (procEvent 0 1 m i).progress ≤ (procEvent 0 1 m (i + 1)).progress := by
  rw [procEvent_progress, procEvent_progress]
  exact roundFrac_mono _ _ _ (by omega)

theorem processOneEmail_events (env : PkgEnv) (bn bd m i : Nat) (eid : EmailId)
    (st : PkgScanState) :
    (processOneEmail env bn bd m i eid st).events = st.events ++ [procEvent bn bd m i] := by
  unfold processOneEmail
  cases hE : env.fetch eid with
  | error e => simp [pushEvent]
  | ok email =>
    cases hD : email.dateMs with
    | none => simp [hD, pushEvent]
    | some ts =>
      simp only [hD, pushEvent]
      cases hX : extractDeliveryInfo (env.llmDelivery eid) email.fromAddr (some ts) with
      | error e => simp
      | ok info =>
        by_cases hI : info.isDeliveryEmail = true <;> simp [hI]

theorem processOneEmail_total (env : PkgEnv) (bn bd m i : Nat) (eid : EmailId)
    (st : PkgScanState) :
    (processOneEmail env bn bd m i eid st).totalEmailsScanned = st.totalEmailsScanned := by
  unfold processOneEmail
  cases hE : env.fetch eid with
  | error e => simp [pushEvent]
  | ok email =>
    cases hD : email.dateMs with
    | none => simp [hD, pushEvent]
    | some ts =>
      simp only [hD, pushEvent]
      cases hX : extractDeliveryInfo (env.llmDelivery eid) email.fromAddr (some ts) with
      | error e => simp
      | ok info =>
        by_cases hI : info.isDeliveryEmail = true <;> simp [hI]

theorem processEmailList_total (env : PkgEnv) (bn bd m : Nat) (ids : List EmailId)
    (i : Nat) (st : PkgScanState) :
    (processEmailList env bn bd m ids i st).totalEmailsScanned = st.totalEmailsScanned := by
  induction ids generalizing i st with
  | nil => rfl
  | cons e rest ih => rw [processEmailList, ih, processOneEmail_total]

theorem processEmailList_events (env : PkgEnv) (bn bd m : Nat) (ids : List EmailId)
    (i : Nat) (st : PkgScanState) :
    (processEmailList env bn bd m ids i st).events =
      st.events ++ (List.range ids.length).map (fun j => procEvent bn bd m (i + j)) := by
  induction ids generalizing i st with
  | nil => simp [processEmailList]
  | cons e rest ih =>
    rw [processEmailList, ih, processOneEmail_events]
    rw [List.length_cons, List.range_succ_eq_map, List.map_cons, List.map_map,
      List.append_assoc, List.singleton_append]
    congr 1
    congr 1
    exact List.map_congr_left (fun j _ => by
      show procEvent bn bd m (i + 1 + j) = procEvent bn bd m (i + (j + 1))
      congr 1
      omega)

theorem mem_of_getLastOpt {α : Type} {l : List α} {a : α} (h : a ∈ l.getLast?) : a ∈ l := by
  rcases List.mem_getLast?_eq_getLast h with ⟨hne, rfl⟩
  exact List.getLast_mem hne

theorem chain'_le_append_of_bounds (xs ys : List Nat)
    (hxs : List.Chain' (· ≤ ·) xs) (hys : List.Chain' (· ≤ ·) ys)
    (hb : ∀ x ∈ xs, ∀ y ∈ ys, x ≤ y) :
    List.Chain' (· ≤ ·) (xs ++ ys) := by
  rw [List.chain'_append]
  exact ⟨hxs, hys, fun x hx y hy =>
    hb x (mem_of_getLastOpt hx) y (List.mem_of_mem_head? hy)⟩

theorem chain'_le_map_range (f : Nat → Nat) (n : Nat) (hf : ∀ j, f j ≤ f (j + 1)) :
    List.Chain' (· ≤ ·) ((List.range n).map f) := by
  rw [List.chain'_map]
  cases n with
  | zero => simp
  | succ k => exact (List.chain'_range_succ (fun a b => f a ≤ f b) k).mpr (fun j _ => hf j)

/-- C4, amended: every run of `processPackageEmails` that completes (is not
aborted by a Gmail search failure) reports the `complete` step with progress
exactly 100 as its final event, regardless of how many ranges were scanned;
but the successive progress values are non-decreasing only when the
reconciler returns a single range (including the fully-covered sentinel) —
with two or more uncovered ranges the reported values regress across range
boundaries (see the counterexample). -/
theorem c4_amended (env : PkgEnv) (db : PkgDB) (s t : Nat)
    (hok : (processPackageEmails env db s t).ok = true) :
    (∃ last, (processPackageEmails env db s t).events.getLast? = some last ∧
      last.step = "complete" ∧ last.progress = 100) ∧
    ((getOptimizedScanRanges db.scanHistory s t).length = 1 →
      List.Chain' (· ≤ ·) ((processPackageEmails env db s t).events.map (·.progress))) := by
  constructor
  · revert hok
    unfold processPackageEmails
    dsimp only
    split
    · intro _
      exact ⟨_, rfl, rfl, rfl⟩
    · split
      · intro hok
        simp at hok
      · intro _
        exact ⟨mkEvent "complete" 100 "Scan complete", List.getLast?_concat _, rfl, rfl⟩
  · intro hone
    obtain ⟨r, hr⟩ := List.length_eq_one.mp hone
    unfold processPackageEmails
    dsimp only
    rw [hr]
    by_cases hrs : r.startDate = none
    · rw [if_pos ⟨rfl, by simpa using hrs⟩]
      dsimp only
      simp [mkEvent, roundFrac, List.chain'_cons]
    · rw [if_neg (fun h => hrs (by simpa using h.2))]
      unfold processPackageEmails at hok
      dsimp only at hok
      rw [hr] at hok
      rw [if_neg (fun h => hrs (by simpa using h.2))] at hok
      simp only [processRangesLoop, List.length_singleton] at hok ⊢
      unfold processRange at hok ⊢
      dsimp only [pushEvent] at hok ⊢
      rw [if_neg (show ¬(false = true) from by simp)] at hok ⊢
      cases hS : env.search (r.startDate.getD 0) (r.endDate.getD 0) with
      | error e =>
        simp only [hS] at hok
        simp at hok
      | ok l =>
        simp only [hS]
        by_cases h0 : l.length = 0
        · rw [if_pos h0, h0]
          dsimp only
          rw [if_neg (show ¬(false = true) from by simp)]
          rw [if_neg (show ¬(0 + 0 > 0) from by omega)]
          dsimp only
          simp [mkEvent, roundFrac, List.chain'_cons]
        · rw [if_neg h0]
          by_cases h1 : (List.filter (fun id =>
              !emailExists (env.readPackages db.packages id) id) l).length = 0
          · rw [if_pos h1]
            dsimp only
            rw [if_neg (show ¬(false = true) from by simp)]
            rw [if_pos (show 0 + l.length > 0 from by omega)]
            dsimp only
            simp [mkEvent, roundFrac, List.chain'_cons]
          · rw [if_neg h1]
            rw [processEmailList_aborted, processEmailList_total, processEmailList_events]
            dsimp only
            rw [if_neg (show ¬(false = true) from by simp)]
            rw [if_pos (show 0 + l.length > 0 from by omega)]
            have hM : 0 < (List.filter (fun id =>
                !emailExists (env.readPackages db.packages id) id) l).length :=
              Nat.pos_of_ne_zero h1
            simp only [List.map_append, List.map_cons, List.map_nil, List.map_map,
              List.append_assoc, List.singleton_append, List.cons_append, List.nil_append,
              Nat.zero_add, Nat.zero_mul, List.length_singleton, mkEvent, roundFrac,
              Nat.mul_one, Nat.reduceMul, Nat.reduceAdd, Nat.reduceDiv]
            refine List.chain'_cons'.mpr ⟨?_, List.chain'_cons'.mpr ⟨?_,
              List.chain'_cons'.mpr ⟨?_, ?_⟩⟩⟩
            · intro y hy
              simp only [List.head?_cons, Option.mem_def, Option.some.injEq] at hy
              omega
            · intro y hy
              simp only [List.head?_cons, Option.mem_def, Option.some.injEq] at hy
              omega
            · intro y hy
              rcases List.mem_append.mp (List.mem_of_mem_head? hy) with hL | hR
              · rcases List.mem_map.mp hL with ⟨j, hj, hjy⟩
                simp only [Function.comp] at hjy
                have h15 := procEvent_progress_ge (List.filter (fun id =>
                    !emailExists (env.readPackages db.packages id) id) l).length j hM
                omega
              · simp only [List.mem_cons, List.not_mem_nil, or_false] at hR
                omega
            · refine chain'_le_append_of_bounds _ _ ?_ ?_ ?_
              · exact chain'_le_map_range _ _ (fun j => procEvent_progress_mono _ j)
              · simp [List.chain'_cons]
              · intro x hx y hy
                rcases List.mem_map.mp hx with ⟨j, hj, hjx⟩
                simp only [Function.comp] at hjx
                have h80 := procEvent_progress_le (List.filter (fun id =>
                    !emailExists (env.readPackages db.packages id) id) l).length j hM
                  (List.mem_range.mp hj)
                simp only [List.mem_cons, List.not_mem_nil, or_false] at hy
                omega

/-- Witness for `c4_amended`: a fresh database and an email-free inbox give a
successful run whose final event is `complete` at 100, and whose single
range makes the whole progress trace monotone. -/
theorem c4_witness :
    (processPackageEmails envNoEmails dbPkgEmpty 100 120).ok = true ∧
    ((∃ last,
        (processPackageEmails envNoEmails dbPkgEmpty 100 120).events.getLast? = some last ∧
        last.step = "complete" ∧ last.progress = 100) ∧
      ((getOptimizedScanRanges dbPkgEmpty.scanHistory 100 120).length = 1 →
        List.Chain' (· ≤ ·)
          ((processPackageEmails envNoEmails dbPkgEmpty 100 120).events.map (·.progress)))) :=
  ⟨by decide, c4_amended envNoEmails dbPkgEmpty 100 120 (by decide)⟩

/-! ## C1: shape of the uncovered gaps around a single history entry -/

/-- C1, amended: with a single scan-history entry strictly inside the requested
window, `getOptimizedScanRanges` returns exactly two gap ranges: the leading
gap ends the day before the entry's requested start, but — because the sweep
advances the cursor by `scanEnd + 1` milliseconds, not one day — the trailing
gap starts on the entry's requested END day itself (that day is re-scanned),
not the day after it as the specification's example claims. -/
theorem c1_theorem (e : ScanHistoryEntry) (s t : Nat)
    (hwf : e.startDateRequested ≤ e.endDateRequested)
    (h1 : s < e.startDateRequested) (h2 : e.endDateRequested < t) :
    (getOptimizedScanRanges [e] s t).map (fun r => (r.startDate, r.endDate)) =
      [(some s, some (e.startDateRequested - 1)),
       (some e.endDateRequested, some t)] := by
  have hov : overlapsRequested (s * msPerDay) (t * msPerDay) e = true := by
    simp only [overlapsRequested, Bool.not_eq_true', Bool.or_eq_false_iff,
      decide_eq_false_iff_not, Nat.not_lt]
    constructor
    · simp only [msPerDay]; omega
    · simp only [msPerDay]; omega
  have hlt : s * msPerDay < e.startDateRequested * msPerDay := by
    simp only [msPerDay]; omega
  have hmax : max (s * msPerDay) (e.endDateRequested * msPerDay + 1) =
      e.endDateRequested * msPerDay + 1 :=
    Nat.max_eq_right (by simp only [msPerDay]; omega)
  have d1 : s * msPerDay / msPerDay = s := by simp only [msPerDay]; omega
  have d2 : (e.startDateRequested * msPerDay - 1) / msPerDay = e.startDateRequested - 1 := by
    simp only [msPerDay]; omega
  have d3 : (e.endDateRequested * msPerDay + 1) / msPerDay = e.endDateRequested := by
    simp only [msPerDay]; omega
  unfold getOptimizedScanRanges
  dsimp only
  simp only [getScanHistory, sortListBy, insertSortedBy]
  rw [List.filter_cons_of_pos hov, List.filter_nil]
  rw [List.isEmpty_cons]
  rw [if_neg (show ¬(false = true) from by simp)]
  simp only [sortListBy, insertSortedBy, sweepRanges]
  rw [if_pos hlt, hmax]
  rw [if_pos (show e.endDateRequested * msPerDay + 1 ≤ t * msPerDay from by
    simp only [msPerDay]; omega)]
  simp only [List.singleton_append, List.isEmpty_cons]
  rw [if_neg (show ¬(false = true) from by simp)]
  simp only [List.map_cons, List.map_nil]
  rw [d1, d2, d3]

/-- Witness for `c1_theorem`: the specification's own example — one entry for
2024-01-10 .. 2024-01-20 and a request for 2024-01-01 .. 2024-01-31 — gives
the gaps 01-01 .. 01-09 and 01-20 .. 01-31 (not 01-21 .. 01-31). -/
theorem c1_witness :
    historyEntryJan2024.startDateRequested ≤ historyEntryJan2024.endDateRequested ∧
    civilToDay 2024 1 1 < historyEntryJan2024.startDateRequested ∧
    historyEntryJan2024.endDateRequested < civilToDay 2024 1 31 ∧
    (getOptimizedScanRanges [historyEntryJan2024]
        (civilToDay 2024 1 1) (civilToDay 2024 1 31)).map
      (fun r => (r.startDate, r.endDate)) =
      [(some (civilToDay 2024 1 1), some (civilToDay 2024 1 9)),
       (some (civilToDay 2024 1 20), some (civilToDay 2024 1 31))] :=
  ⟨by decide, by decide, by decide, by
    rw [c1_theorem historyEntryJan2024 (civilToDay 2024 1 1) (civilToDay 2024 1 31)
      (by decide) (by decide) (by decide)]
    decide⟩

end GTracker
